import Mathlib

/-!
Text console of the RP2040-GEEK board (`board_rp2040_geek.c`)

A shallow embedding of the console state machine of
`src/boards/src/board_rp2040_geek.c` and theorems about it.

* `uint16_t` values are natural numbers; every place where the C code does
  arithmetic that is stored back into a `uint16_t` reduces modulo `2 ^ 16`.
* A `char` value is an integer (`Int`), so that both a signed and an unsigned
  `char` type are covered; `charOfByte` gives the value of a byte under either
  convention.
* The global `g_console` is the field `g_console` of `World`; `none` is the
  `NULL` pointer.
* Calls into the vendor libraries (hardware bring-up, `GUI_Paint`, LCD driver)
  are recorded, oldest first, in `World.calls`.
-/

namespace Geek

/-- The two metrics of the vendor type `sFONT` that the console reads. -/
structure SFont where
  Width : Nat
  Height : Nat
deriving DecidableEq, Repr

/-- The struct `rp2040_geek_console_t`; `framebuffer` is the trailing flexible
array of `UWORD` pixels. -/
structure Console where
  font : SFont
  cursor_x : Nat
  cursor_y : Nat
  width : Nat
  height : Nat
  forecolor : Nat
  backcolor : Nat
  framebuffer : List Nat
deriving DecidableEq, Repr

/-- One call into an external collaborator, with the values of its argument
expressions as computed at the call site. `malloc` carries the number of bytes
requested for the frame buffer part of the block; `Paint_DrawChar` carries
`(x, y, ch, back, fore)` in the order of the call in
`rp2040_geek_console_putchar`. -/
inductive Call where
  | malloc (fbBytes : Nat)
  | free
  | DEV_Delay_ms (ms : Nat)
  | DEV_Module_Init
  | DEV_SET_PWM (duty : Nat)
  | LCD_1IN14_V2_Init (scan : Nat)
  | LCD_1IN14_V2_Clear (color : Nat)
  | Paint_NewImage (w h rot color : Nat)
  | Paint_SetScale (scale : Nat)
  | Paint_SetRotate (rot : Nat)
  | Paint_Clear (color : Nat)
  | Paint_DrawChar (x y : Nat) (ch : Int) (back fore : Nat)
  | LCD_1IN14_V2_Display (image : List Nat)
deriving DecidableEq, Repr

/-- Constants, tables and the glyph rasteriser of the vendor headers, which
are not part of the sources: the macros `LCD_1IN14_V2_HEIGHT` and
`LCD_1IN14_V2_WIDTH`, the attributes `LCD_1IN14_V2.WIDTH` and
`LCD_1IN14_V2.HEIGHT` (valid after `LCD_1IN14_V2_Init`), the font table
`Font16`, the colour and mode constants, and the effect of `Paint_DrawChar`
on the pixels of the image. -/
structure Env where
  LCD_1IN14_V2_HEIGHT : Nat
  LCD_1IN14_V2_WIDTH : Nat
  lcdWIDTH : Nat
  lcdHEIGHT : Nat
  Font16 : SFont
  BLACK : Nat
  WHITE : Nat
  GRAY : Nat
  HORIZONTAL : Nat
  ROTATE_0 : Nat
  drawChar : List Nat → Nat → Nat → Int → SFont → Nat → Nat → List Nat

/-- The program state: the global `g_console` and the log of external calls. -/
structure World where
  g_console : Option Console
  calls : List Call
deriving DecidableEq, Repr

/-- What the environment answers during one run of
`rp2040_geek_console_init`: whether `malloc` returns a block, the
(indeterminate) initial content of pixel `i` of that block, and the return
value of `DEV_Module_Init`. -/
structure InitOracle where
  mallocOk : Bool
  garbage : Nat → Nat
  devModuleInit : Int

/-- The value of the byte `b` as a `char`, for a signed (`true`) or unsigned
(`false`) plain `char` type. -/
def charOfByte (isSigned : Bool) (b : Nat) : Int :=
  if isSigned && decide (128 ≤ b) then (b : Int) - 256 else (b : Int)

/-- Modelled from the spec: `Paint_Clear` of the vendor `GUI_Paint` library is
not part of the sources; a full clear resets every pixel of the buffer to the
given colour. -/
def Paint_Clear (color : Nat) (fb : List Nat) : List Nat :=
  fb.map (fun _ => color)

/-- `rp2040_geek_console_clear` (lines 49-55). -/
def rp2040_geek_console_clear (env : Env) (w : World) : World :=
  match w.g_console with
  | none => w
  | some con =>
    { g_console := some { con with framebuffer := Paint_Clear env.BLACK con.framebuffer }
      calls := w.calls ++ [Call.Paint_Clear env.BLACK] }

/-- `rp2040_geek_console_flush` (lines 57-63). -/
def rp2040_geek_console_flush (w : World) : World :=
  match w.g_console with
  | none => w
  | some con =>
    { w with calls := w.calls ++ [Call.LCD_1IN14_V2_Display con.framebuffer] }

/-- `rp2040_geek_console_init` (lines 65-111). The result pairs the returned
`bool` with the new program state. -/
def rp2040_geek_console_init (env : Env) (o : InitOracle) (w : World) : Bool × World :=
  match w.g_console with
  | some _ => (true, w)
  | none =>
    let calls := w.calls ++ [Call.malloc (env.LCD_1IN14_V2_HEIGHT * env.LCD_1IN14_V2_WIDTH * 2)]
    if !o.mallocOk then
      (false, { g_console := none, calls := calls })
    else
      let calls := calls ++ [Call.DEV_Delay_ms 100, Call.DEV_Module_Init]
      if o.devModuleInit ≠ 0 then
        (false, { g_console := none, calls := calls ++ [Call.free] })
      else
        let calls := calls ++ [Call.DEV_SET_PWM 0, Call.LCD_1IN14_V2_Init env.HORIZONTAL,
          Call.LCD_1IN14_V2_Clear env.BLACK, Call.DEV_SET_PWM 75]
        let font := env.Font16
        let fb := (List.range (env.LCD_1IN14_V2_HEIGHT * env.LCD_1IN14_V2_WIDTH)).map o.garbage
        let calls := calls ++ [Call.Paint_NewImage env.lcdWIDTH env.lcdHEIGHT 0 env.BLACK,
          Call.Paint_SetScale 65, Call.Paint_Clear env.BLACK]
        let fb := Paint_Clear env.BLACK fb
        let calls := calls ++ [Call.Paint_SetRotate env.ROTATE_0, Call.Paint_Clear env.BLACK]
        let fb := Paint_Clear env.BLACK fb
        let con : Console :=
          { font := font
            cursor_x := 0
            cursor_y := 0
            width := (env.lcdWIDTH / font.Width) % 65536
            height := (env.lcdHEIGHT / font.Height) % 65536
            forecolor := env.WHITE
            backcolor := env.BLACK
            framebuffer := fb }
        (true, { g_console := some con
                 calls := calls ++ [Call.LCD_1IN14_V2_Display fb] })

/-- `rp2040_geek_console_setcolor` (lines 113-120). -/
def rp2040_geek_console_setcolor (forecolor backcolor : Nat) (w : World) : World :=
  match w.g_console with
  | none => w
  | some con =>
    { w with g_console := some { con with forecolor := forecolor, backcolor := backcolor } }

/-- `rp2040_geek_console_putchar` (lines 122-181). -/
def rp2040_geek_console_putchar (env : Env) (ch : Int) (w : World) : World :=
  match w.g_console with
  | none => w
  | some con =>
    let old_x := con.cursor_x
    let old_y := con.cursor_y
    let new_x := old_x
    let new_y := old_y
    -- dispatch on the character: (new_x, new_y, frame buffer, calls)
    let r : Nat × Nat × List Nat × List Call :=
      if ch = 13 then
        -- '\r'
        (0, new_y, con.framebuffer, w.calls)
      else if ch = 10 then
        -- '\n'
        (new_x, (new_y + 1) % 65536, con.framebuffer, w.calls)
      else if ch = 9 then
        -- '\t'
        ((new_x + 8) % 65536, new_y, con.framebuffer, w.calls)
      else if ch = 11 then
        -- '\v'
        (new_x, (new_y + 1) % 65536, con.framebuffer, w.calls)
      else
        let ch := if 0x20 ≤ ch ∧ ch ≤ 0x7E then ch else 0x20
        let font := con.font
        let x := old_x * font.Width
        let y := old_y * font.Height
        ((new_x + 1) % 65536, new_y,
          env.drawChar con.framebuffer x y ch con.font con.backcolor con.forecolor,
          w.calls ++ [Call.Paint_DrawChar x y ch con.backcolor con.forecolor])
    let new_x := r.1
    let new_y := r.2.1
    -- Handle wrapping (after output)
    let p : Nat × Nat :=
      if new_x ≥ con.width then (0, (new_y + 1) % 65536) else (new_x, new_y)
    let q : Nat × Nat :=
      if p.2 ≥ con.height then (0, 0) else p
    { g_console := some { con with cursor_x := q.1, cursor_y := q.2, framebuffer := r.2.2.1 }
      calls := r.2.2.2 }

/-- `rp2040_geek_console_puts` (lines 183-191). The list is the content of
memory from `str` on; the loop stops at the first `'\0'`. Reading past the end
of the modelled memory gives `none`. -/
def rp2040_geek_console_puts (env : Env) : List Int → World → Option World
  | [], _ => none
  | c :: str, w =>
    if c = 0 then some w
    else rp2040_geek_console_puts env str (rp2040_geek_console_putchar env c w)

/-- Calling `rp2040_geek_console_putchar` on each element of a list, in
order, one call at a time. -/
def putcharEach (env : Env) (chs : List Int) (w : World) : World :=
  chs.foldl (fun w ch => rp2040_geek_console_putchar env ch w) w

/-- The wrap policy of section 4.1 of the specification, applied to a cursor
`(column, row)`: step 1 (column at or past `grid_columns`: column 0, next row)
followed by step 2 (row at or past `grid_rows`: top-left). The row increment
is the 16-bit one of the code. -/
def wrapPolicy (grid_columns grid_rows : Nat) (cur : Nat × Nat) : Nat × Nat :=
  let cur1 : Nat × Nat := if cur.1 ≥ grid_columns then (0, (cur.2 + 1) % 65536) else cur
  if cur1.2 ≥ grid_rows then (0, 0) else cur1

/-- A small instance of the vendor constants for evaluating the definitions:
a display of 8 by 4 pixels and a font of 2 by 2 pixels, hence a grid of 4
columns and 2 rows. Its rasteriser marks the top-left pixel of the glyph
with the foreground colour. -/
def demoEnv : Env :=
  { LCD_1IN14_V2_HEIGHT := 4
    LCD_1IN14_V2_WIDTH := 8
    lcdWIDTH := 8
    lcdHEIGHT := 4
    Font16 := { Width := 2, Height := 2 }
    BLACK := 0x0000
    WHITE := 0xFFFF
    GRAY := 0x8430
    HORIZONTAL := 1
    ROTATE_0 := 0
    drawChar := fun fb x y _ _ _ fore => fb.set (y * 8 + x) fore }

/-- An oracle under which `rp2040_geek_console_init` succeeds. -/
def demoOracle : InitOracle :=
  { mallocOk := true, garbage := fun i => i, devModuleInit := 0 }

/-- A console on the 4 by 2 grid of `demoEnv` with cursor `(x, y)`, white on
black, over a frame buffer of 32 black pixels. -/
def demoConsole (x y : Nat) : Console :=
  { font := { Width := 2, Height := 2 }
    cursor_x := x
    cursor_y := y
    width := 4
    height := 2
    forecolor := 0xFFFF
    backcolor := 0x0000
    framebuffer := List.replicate 32 0 }

/-- The pixel position and the character of each glyph drawn when the
characters `chs` are written cell after cell in row-major order, starting at
cell number `p`: cell `p` is column `p % cols` of row `p / cols`, and cell
numbers count modulo `cols * rows` (after the last cell comes cell 0). -/
def glyphCells (cols rows : Nat) (font : SFont) : Nat → List Int → List (Nat × Nat × Int)
  | _, [] => []
  | p, ch :: chs =>
    (p % (cols * rows) % cols * font.Width, p % (cols * rows) / cols * font.Height, ch) ::
      glyphCells cols rows font (p + 1) chs

/-- The call that draws the glyph `g = (x, y, ch)` with the given colours. -/
def drawCall (back fore : Nat) (g : Nat × Nat × Int) : Call :=
  Call.Paint_DrawChar g.1 g.2.1 g.2.2 back fore

/-- The frame buffer after the rasteriser has drawn the glyphs `gs`, in order. -/
def drawGlyphs (env : Env) (font : SFont) (back fore : Nat) (fb : List Nat)
    (gs : List (Nat × Nat × Int)) : List Nat :=
  gs.foldl (fun fb g => env.drawChar fb g.1 g.2.1 g.2.2 font back fore) fb

/-- The cursor part of the dispatch on the character in
`rp2040_geek_console_putchar` (lines 132-162): the pair `(new_x, new_y)`
before the wrap handling, from the old cursor `cur`. -/
def dispatchCursor (ch : Int) (cur : Nat × Nat) : Nat × Nat :=
  if ch = 13 then (0, cur.2)
  else if ch = 10 then (cur.1, (cur.2 + 1) % 65536)
  else if ch = 9 then ((cur.1 + 8) % 65536, cur.2)
  else if ch = 11 then (cur.1, (cur.2 + 1) % 65536)
  else ((cur.1 + 1) % 65536, cur.2)

/-- The cursor of the console after each call, when
`rp2040_geek_console_putchar` is called on each character in order. -/
def cursorsAfterEach (env : Env) : List Int → World → List (Option (Nat × Nat))
  | [], _ => []
  | ch :: chs, w =>
    (rp2040_geek_console_putchar env ch w).g_console.map
        (fun con => (con.cursor_x, con.cursor_y)) ::
      cursorsAfterEach env chs (rp2040_geek_console_putchar env ch w)

/-- The pixel position and the character of each glyph when the characters
`chs` are written on consecutive columns of the row `row`, from column `col`
on. -/
def rowGlyphs (font : SFont) (row : Nat) : Nat → List Int → List (Nat × Nat × Int)
  | _, [] => []
  | col, ch :: chs =>
    (col * font.Width, row * font.Height, ch) :: rowGlyphs font row (col + 1) chs

/-- `board_ui_init` (lines 193-206). `usb_serial` is the content of the
global character array of that name; the two string literals are
`"debugprobe\r\n"` and `"\r\n"` with their terminators. The result is
`none` when `usb_serial` has no terminator. -/
def board_ui_init (env : Env) (o : InitOracle) (usb_serial : List Int) (w : World) :
    Option World :=
  let w := (rp2040_geek_console_init env o w).2
  let w := rp2040_geek_console_setcolor env.WHITE env.BLACK w
  (rp2040_geek_console_puts env
      [100, 101, 98, 117, 103, 112, 114, 111, 98, 101, 13, 10, 0] w).bind fun w =>
    let w := rp2040_geek_console_setcolor env.GRAY env.BLACK w
    (rp2040_geek_console_puts env usb_serial w).bind fun w =>
      (rp2040_geek_console_puts env [13, 10, 0] w).bind fun w =>
        some (rp2040_geek_console_flush w)

/-- A second small instance of the vendor constants, wide enough for the
banner of `board_ui_init`: a display of 12 by 3 pixels and a font of 1 by 1
pixel, hence a grid of 12 columns and 3 rows. -/
def bannerEnv : Env :=
  { LCD_1IN14_V2_HEIGHT := 3
    LCD_1IN14_V2_WIDTH := 12
    lcdWIDTH := 12
    lcdHEIGHT := 3
    Font16 := { Width := 1, Height := 1 }
    BLACK := 0x0000
    WHITE := 0xFFFF
    GRAY := 0x8430
    HORIZONTAL := 1
    ROTATE_0 := 0
    drawChar := fun fb x y _ _ _ fore => fb.set (y * 12 + x) fore }

/-- The console that `rp2040_geek_console_init` makes under `bannerEnv`. -/
def bannerConsole : Console :=
  { font := { Width := 1, Height := 1 }
    cursor_x := 0
    cursor_y := 0
    width := 12
    height := 3
    forecolor := 0xFFFF
    backcolor := 0x0000
    framebuffer := List.replicate 36 0 }

/-! ## One call of `rp2040_geek_console_putchar` on a Ready console -/

/-- Whatever the character, a call on a Ready console keeps the console Ready
with the same font, grid and colours, and leaves the cursor inside a
non-empty grid. -/
theorem putchar_ready_frame (env : Env) (con : Console) (calls : List Call) (ch : Int) :
    ∃ con2 : Console,
      (rp2040_geek_console_putchar env ch ⟨some con, calls⟩).g_console = some con2 ∧
      con2.font = con.font ∧ con2.width = con.width ∧ con2.height = con.height ∧
      con2.forecolor = con.forecolor ∧ con2.backcolor = con.backcolor ∧
      (1 ≤ con.width → 1 ≤ con.height →
        con2.cursor_x < con.width ∧ con2.cursor_y < con.height) := by
  refine ⟨_, rfl, rfl, rfl, rfl, rfl, rfl, ?_⟩
  intro hw hh
  dsimp only
  constructor <;> split_ifs <;> dsimp only at * <;> omega

/-- The effect of a printable character, all `let`s unfolded. -/
theorem putchar_printable_eq (env : Env) (con : Console) (calls : List Call) (ch : Int)
    (hch : 0x20 ≤ ch ∧ ch ≤ 0x7E) :
    rp2040_geek_console_putchar env ch ⟨some con, calls⟩ =
      ⟨some { con with
          cursor_x := (wrapPolicy con.width con.height
            ((con.cursor_x + 1) % 65536, con.cursor_y)).1
          cursor_y := (wrapPolicy con.width con.height
            ((con.cursor_x + 1) % 65536, con.cursor_y)).2
          framebuffer := env.drawChar con.framebuffer (con.cursor_x * con.font.Width)
            (con.cursor_y * con.font.Height) ch con.font con.backcolor con.forecolor },
        calls ++ [Call.Paint_DrawChar (con.cursor_x * con.font.Width)
          (con.cursor_y * con.font.Height) ch con.backcolor con.forecolor]⟩ := by
  have h13 : ch ≠ 13 := by omega
  have h10 : ch ≠ 10 := by omega
  have h9 : ch ≠ 9 := by omega
  have h11 : ch ≠ 11 := by omega
  simp only [rp2040_geek_console_putchar, wrapPolicy, h13, h10, h9, h11, hch, if_false,
    and_self, if_true, ge_iff_le]

/-- Any sequence of calls on a Ready console with a non-empty grid keeps the
grid and leaves the cursor inside it. -/
theorem putcharEach_ready_inv (env : Env) (chs : List Int) :
    ∀ (con : Console) (calls : List Call), 1 ≤ con.width → 1 ≤ con.height →
      con.cursor_x < con.width → con.cursor_y < con.height →
      ∃ con2 : Console,
        (putcharEach env chs ⟨some con, calls⟩).g_console = some con2 ∧
        con2.width = con.width ∧ con2.height = con.height ∧
        con2.cursor_x < con2.width ∧ con2.cursor_y < con2.height := by
  induction chs with
  | nil =>
    intro con calls _ _ hx hy
    exact ⟨con, rfl, rfl, rfl, hx, hy⟩
  | cons ch chs ih =>
    intro con calls hw hh _ _
    obtain ⟨con2, hg, _, hw2, hh2, _, _, hcur⟩ := putchar_ready_frame env con calls ch
    have hstep : rp2040_geek_console_putchar env ch ⟨some con, calls⟩ =
        ⟨some con2, (rp2040_geek_console_putchar env ch ⟨some con, calls⟩).calls⟩ := by
      rw [← hg]
    obtain ⟨hx2, hy2⟩ := hcur hw hh
    obtain ⟨con3, h3, hw3, hh3, hx3, hy3⟩ :=
      ih con2 _ (by omega) (by omega) (by omega) (by omega)
    refine ⟨con3, ?_, by omega, by omega, hx3, hy3⟩
    simp only [putcharEach, List.foldl_cons] at h3 ⊢
    rw [hstep]
    exact h3

/-- The console that `rp2040_geek_console_init` leaves behind when it was
called without a console has its cursor at the top-left. -/
theorem init_cursor_origin (env : Env) (o : InitOracle) (w0 : World) (con1 : Console)
    (huninit : w0.g_console = none)
    (hready : (rp2040_geek_console_init env o w0).2.g_console = some con1) :
    con1.cursor_x = 0 ∧ con1.cursor_y = 0 := by
  obtain ⟨g, calls⟩ := w0
  simp only at huninit
  subst huninit
  simp only [rp2040_geek_console_init] at hready
  split_ifs at hready
  simp only [Option.some.injEq] at hready
  subst hready
  exact ⟨rfl, rfl⟩

/-! ## Printable characters and cell numbers -/

/-- Advancing by one cell in row-major order, with wrap-around at the end of
a row and at the end of the grid, is adding one to the cell number modulo the
number of cells. -/
theorem cell_succ (W H m : Nat) (hm : m < W * H) :
    (if m % W + 1 < W then (m % W + 1, m / W)
      else if m / W + 1 < H then (0, m / W + 1) else (0, 0)) =
    ((m + 1) % (W * H) % W, (m + 1) % (W * H) / W) := by
  have hW : 0 < W := by
    rcases Nat.eq_zero_or_pos W with h | h
    · subst h; simp at hm
    · exact h
  have hy : m / W < H := Nat.div_lt_of_lt_mul hm
  have hx : m % W < W := Nat.mod_lt _ hW
  have hdm : W * (m / W) + m % W = m := Nat.div_add_mod m W
  have hle : W * (m / W + 1) ≤ W * H := Nat.mul_le_mul_left W hy
  rw [Nat.mul_add, Nat.mul_one] at hle
  generalize m / W = y at *
  generalize m % W = x at *
  subst hdm
  split_ifs with h1 h2
  · have e1 : (W * y + x + 1) % (W * H) = W * y + (x + 1) := Nat.mod_eq_of_lt (by omega)
    rw [e1, Nat.mul_add_mod, Nat.mul_add_div hW, Nat.mod_eq_of_lt h1, Nat.div_eq_of_lt h1]
    rfl
  · have hx1 : x + 1 = W := by omega
    have hlt : W * (y + 1 + 1) ≤ W * H := Nat.mul_le_mul_left W h2
    rw [Nat.mul_add, Nat.mul_one, Nat.mul_add, Nat.mul_one] at hlt
    have e0 : W * y + x + 1 = W * (y + 1) := by rw [Nat.mul_add, Nat.mul_one]; omega
    have e1 : (W * y + x + 1) % (W * H) = W * (y + 1) := by
      rw [e0]; apply Nat.mod_eq_of_lt; rw [Nat.mul_add, Nat.mul_one]; omega
    rw [e1, Nat.mul_mod_right, Nat.mul_div_cancel_left _ hW]
  · have hx1 : x + 1 = W := by omega
    have hy1 : y + 1 = H := by omega
    have e0 : W * y + x + 1 = W * H := by rw [← hy1, Nat.mul_add, Nat.mul_one]; omega
    rw [e0, Nat.mod_self, Nat.zero_mod, Nat.zero_div]

/-- The two wrap steps on a cursor inside a grid of 16-bit dimensions, after
the column was advanced by one. -/
theorem wrapPolicy_in_grid (W H x y : Nat) (hx : x < W) (hy : y < H)
    (hW : W < 65536) (hH : H < 65536) :
    wrapPolicy W H ((x + 1) % 65536, y) =
      if x + 1 < W then (x + 1, y) else if y + 1 < H then (0, y + 1) else (0, 0) := by
  have h1 : (x + 1) % 65536 = x + 1 := Nat.mod_eq_of_lt (by omega)
  have h2 : (y + 1) % 65536 = y + 1 := Nat.mod_eq_of_lt (by omega)
  simp only [wrapPolicy, h1, h2]
  split_ifs <;> first | rfl | omega

/-- A printable character written with the cursor on cell `p` of a non-empty
grid of 16-bit dimensions is drawn on that cell and moves the cursor to cell
`p + 1`. -/
theorem putchar_printable_cell (env : Env) (con : Console) (calls : List Call) (ch : Int)
    (hch : 0x20 ≤ ch ∧ ch ≤ 0x7E) (hW : con.width < 65536) (hH : con.height < 65536)
    (hN : 0 < con.width * con.height) (p : Nat)
    (hx : con.cursor_x = p % (con.width * con.height) % con.width)
    (hy : con.cursor_y = p % (con.width * con.height) / con.width) :
    rp2040_geek_console_putchar env ch ⟨some con, calls⟩ =
      ⟨some { con with
          cursor_x := (p + 1) % (con.width * con.height) % con.width
          cursor_y := (p + 1) % (con.width * con.height) / con.width
          framebuffer := env.drawChar con.framebuffer (con.cursor_x * con.font.Width)
            (con.cursor_y * con.font.Height) ch con.font con.backcolor con.forecolor },
        calls ++ [Call.Paint_DrawChar (con.cursor_x * con.font.Width)
          (con.cursor_y * con.font.Height) ch con.backcolor con.forecolor]⟩ := by
  have hm : p % (con.width * con.height) < con.width * con.height := Nat.mod_lt _ hN
  have hW0 : 0 < con.width := Nat.pos_of_mul_pos_right hN
  have hxW : con.cursor_x < con.width := by rw [hx]; exact Nat.mod_lt _ hW0
  have hyH : con.cursor_y < con.height := by rw [hy]; exact Nat.div_lt_of_lt_mul hm
  have hcell := cell_succ con.width con.height _ hm
  rw [Nat.mod_add_mod, ← hx, ← hy] at hcell
  rw [putchar_printable_eq env con calls ch hch,
    wrapPolicy_in_grid con.width con.height con.cursor_x con.cursor_y hxW hyH hW hH, hcell]

/-- Printable characters written one after the other fill consecutive cells:
starting on cell `p`, the glyphs drawn are those of `glyphCells` and the
cursor ends on cell `p + chs.length`. -/
theorem putcharEach_printable (env : Env) (chs : List Int) :
    ∀ (con : Console) (calls : List Call) (p : Nat),
      con.width < 65536 → con.height < 65536 → 0 < con.width * con.height →
      con.cursor_x = p % (con.width * con.height) % con.width →
      con.cursor_y = p % (con.width * con.height) / con.width →
      (∀ ch ∈ chs, 0x20 ≤ ch ∧ ch ≤ 0x7E) →
      putcharEach env chs ⟨some con, calls⟩ =
        ⟨some { con with
            cursor_x := (p + chs.length) % (con.width * con.height) % con.width
            cursor_y := (p + chs.length) % (con.width * con.height) / con.width
            framebuffer := drawGlyphs env con.font con.backcolor con.forecolor
              con.framebuffer (glyphCells con.width con.height con.font p chs) },
          calls ++ (glyphCells con.width con.height con.font p chs).map
            (drawCall con.backcolor con.forecolor)⟩ := by
  induction chs with
  | nil =>
    intro con calls p _ _ _ hx hy _
    simp only [putcharEach, List.foldl_nil, List.length_nil, Nat.add_zero, glyphCells,
      drawGlyphs, List.map_nil, List.append_nil, ← hx, ← hy]
  | cons ch chs ih =>
    intro con calls p hW hH hN hx hy hchs
    have hch := hchs ch (List.mem_cons_self _ _)
    have hrest : ∀ c ∈ chs, 0x20 ≤ c ∧ c ≤ 0x7E :=
      fun c hc => hchs c (List.mem_cons_of_mem _ hc)
    have hstep := putchar_printable_cell env con calls ch hch hW hH hN p hx hy
    have hfold : putcharEach env (ch :: chs) ⟨some con, calls⟩ =
        putcharEach env chs (rp2040_geek_console_putchar env ch ⟨some con, calls⟩) := rfl
    have hnext := ih
      { con with
          cursor_x := (p + 1) % (con.width * con.height) % con.width
          cursor_y := (p + 1) % (con.width * con.height) / con.width
          framebuffer := env.drawChar con.framebuffer (con.cursor_x * con.font.Width)
            (con.cursor_y * con.font.Height) ch con.font con.backcolor con.forecolor }
      (calls ++ [Call.Paint_DrawChar (con.cursor_x * con.font.Width)
          (con.cursor_y * con.font.Height) ch con.backcolor con.forecolor])
      (p + 1) hW hH hN rfl rfl hrest
    rw [hfold, hstep, hnext]
    simp only [glyphCells, drawGlyphs, List.foldl_cons, List.map_cons, drawCall,
      List.length_cons, List.append_assoc, List.singleton_append, ← hx, ← hy,
      Nat.add_assoc, Nat.add_comm 1]

/-- The cell number of the cursor `(c, r)` of a grid is `W * r + c`. -/
theorem cell_of_cursor (W H c r : Nat) (hc : c < W) (hr : r < H) :
    (W * r + c) % (W * H) % W = c ∧ (W * r + c) % (W * H) / W = r := by
  have hle : W * (r + 1) ≤ W * H := Nat.mul_le_mul_left W hr
  rw [Nat.mul_add, Nat.mul_one] at hle
  have e : (W * r + c) % (W * H) = W * r + c := Nat.mod_eq_of_lt (by omega)
  rw [e, Nat.mul_add_mod, Nat.mul_add_div (by omega), Nat.mod_eq_of_lt hc,
    Nat.div_eq_of_lt hc]
  exact ⟨rfl, rfl⟩

/-- Adding one row of cells to the cell number keeps the column and moves to
the next row, or from the last row to row 0. -/
theorem cell_next_row (W H c r : Nat) (hc : c < W) (hr : r < H) :
    (W * r + c + W) % (W * H) % W = c ∧
    (W * r + c + W) % (W * H) / W = if r + 1 < H then r + 1 else 0 := by
  have e0 : W * r + c + W = W * (r + 1) + c := by rw [Nat.mul_add, Nat.mul_one]; omega
  rw [e0]
  split_ifs with h
  · exact cell_of_cursor W H c (r + 1) hc h
  · have hH : r + 1 = H := by omega
    have hWH : W ≤ W * H := Nat.le_mul_of_pos_right W (by omega)
    rw [hH, Nat.add_comm, Nat.add_mod_right, Nat.mod_eq_of_lt (by omega : c < W * H),
       Nat.mod_eq_of_lt hc, Nat.div_eq_of_lt hc]
    exact ⟨rfl, rfl⟩

/-- The `i`-th glyph of `glyphCells` is the `i`-th character, on cell `p + i`. -/
theorem glyphCells_getElem (W H : Nat) (font : SFont) (chs : List Int) :
    ∀ (p i : Nat), (glyphCells W H font p chs)[i]? =
      chs[i]?.map (fun ch => ((p + i) % (W * H) % W * font.Width,
        (p + i) % (W * H) / W * font.Height, ch)) := by
  induction chs with
  | nil => intro p i; simp [glyphCells]
  | cons ch chs ih =>
    intro p i
    cases i with
    | zero => simp [glyphCells]
    | succ i =>
      simp only [glyphCells, List.getElem?_cons_succ, ih (p + 1) i]
      rw [Nat.add_assoc, Nat.add_comm 1 i]

/-- The number of glyphs of `glyphCells` is the number of characters. -/
theorem glyphCells_length (W H : Nat) (font : SFont) (chs : List Int) :
    ∀ p : Nat, (glyphCells W H font p chs).length = chs.length := by
  induction chs with
  | nil => intro p; rfl
  | cons ch chs ih => intro p; simp [glyphCells, ih (p + 1)]

/-- Writing as many printable characters as the grid has columns, from any
cursor inside the grid, restores the column and moves to the next row, or
from the last row to row 0. -/
theorem putcharEach_full_row (env : Env) (con : Console) (calls : List Call)
    (chs : List Int) (hW : con.width < 65536) (hH : con.height < 65536)
    (hx : con.cursor_x < con.width) (hy : con.cursor_y < con.height)
    (hlen : chs.length = con.width) (hchs : ∀ ch ∈ chs, 0x20 ≤ ch ∧ ch ≤ 0x7E) :
    putcharEach env chs ⟨some con, calls⟩ =
      ⟨some { con with
          cursor_x := con.cursor_x
          cursor_y := if con.cursor_y + 1 < con.height then con.cursor_y + 1 else 0
          framebuffer := drawGlyphs env con.font con.backcolor con.forecolor
            con.framebuffer (glyphCells con.width con.height con.font
              (con.width * con.cursor_y + con.cursor_x) chs) },
        calls ++ (glyphCells con.width con.height con.font
          (con.width * con.cursor_y + con.cursor_x) chs).map
            (drawCall con.backcolor con.forecolor)⟩ := by
  have hN : 0 < con.width * con.height := Nat.mul_pos (by omega) (by omega)
  obtain ⟨c1, c2⟩ := cell_of_cursor con.width con.height con.cursor_x con.cursor_y hx hy
  obtain ⟨n1, n2⟩ := cell_next_row con.width con.height con.cursor_x con.cursor_y hx hy
  rw [putcharEach_printable env chs con calls (con.width * con.cursor_y + con.cursor_x)
    hW hH hN c1.symm c2.symm hchs, hlen, n1, n2]

/-- The effect of a character that is neither a handled control character
nor in `0x20..0x7E`: the glyph of the space character is drawn. -/
theorem putchar_other_eq (env : Env) (con : Console) (calls : List Call) (ch : Int)
    (hctl : ch ≠ 13 ∧ ch ≠ 10 ∧ ch ≠ 9 ∧ ch ≠ 11) (hnp : ¬ (0x20 ≤ ch ∧ ch ≤ 0x7E)) :
    rp2040_geek_console_putchar env ch ⟨some con, calls⟩ =
      ⟨some { con with
          cursor_x := (wrapPolicy con.width con.height
            ((con.cursor_x + 1) % 65536, con.cursor_y)).1
          cursor_y := (wrapPolicy con.width con.height
            ((con.cursor_x + 1) % 65536, con.cursor_y)).2
          framebuffer := env.drawChar con.framebuffer (con.cursor_x * con.font.Width)
            (con.cursor_y * con.font.Height) 0x20 con.font con.backcolor con.forecolor },
        calls ++ [Call.Paint_DrawChar (con.cursor_x * con.font.Width)
          (con.cursor_y * con.font.Height) 0x20 con.backcolor con.forecolor]⟩ := by
  obtain ⟨h13, h10, h9, h11⟩ := hctl
  simp only [rp2040_geek_console_putchar, wrapPolicy, h13, h10, h9, h11, hnp, if_false,
    ge_iff_le]

/-- The loop of `rp2040_geek_console_puts` over characters none of which is
`0`, followed by a `0`, is one `rp2040_geek_console_putchar` call per
character. -/
theorem puts_eq_putcharEach (env : Env) (bs tail : List Int) (hbs : ∀ b ∈ bs, b ≠ 0) :
    ∀ w : World,
      rp2040_geek_console_puts env (bs ++ 0 :: tail) w = some (putcharEach env bs w) := by
  induction bs with
  | nil => intro w; simp [rp2040_geek_console_puts, putcharEach]
  | cons b bs ih =>
    intro w
    have hb : b ≠ 0 := hbs b (List.mem_cons_self _ _)
    have hrest : ∀ c ∈ bs, c ≠ 0 := fun c hc => hbs c (List.mem_cons_of_mem _ hc)
    rw [List.cons_append]
    show (if b = 0 then some w
      else rp2040_geek_console_puts env (bs ++ 0 :: tail)
        (rp2040_geek_console_putchar env b w)) = _
    rw [if_neg hb, ih hrest]
    rfl

/-- Without a console, `rp2040_geek_console_putchar` does nothing. -/
theorem putchar_uninit (env : Env) (ch : Int) (calls : List Call) :
    rp2040_geek_console_putchar env ch ⟨none, calls⟩ = ⟨none, calls⟩ := rfl

/-- Without a console, `rp2040_geek_console_puts` returns at the terminator
without any effect. -/
theorem puts_uninit (env : Env) (calls : List Call) (str : List Int) (h0 : 0 ∈ str) :
    rp2040_geek_console_puts env str ⟨none, calls⟩ = some ⟨none, calls⟩ := by
  induction str with
  | nil => exact absurd h0 (List.not_mem_nil _)
  | cons c str ih =>
    by_cases hc : c = 0
    · simp [rp2040_geek_console_puts, hc]
    · have h1 : 0 ∈ str := by
        rcases List.mem_cons.mp h0 with h | h
        · exact absurd h.symm hc
        · exact h
      simp only [rp2040_geek_console_puts, hc, if_false, putchar_uninit, ih h1]

/-! ## Initialisation and control characters -/

/-- The console and the calls of a successful `rp2040_geek_console_init`
that was called without a console. -/
theorem init_success_eq (env : Env) (o : InitOracle) (calls : List Call)
    (hm : o.mallocOk = true) (hd : o.devModuleInit = 0) :
    rp2040_geek_console_init env o ⟨none, calls⟩ =
      (true,
        ⟨some
          { font := env.Font16
            cursor_x := 0
            cursor_y := 0
            width := (env.lcdWIDTH / env.Font16.Width) % 65536
            height := (env.lcdHEIGHT / env.Font16.Height) % 65536
            forecolor := env.WHITE
            backcolor := env.BLACK
            framebuffer := List.replicate
              (env.LCD_1IN14_V2_HEIGHT * env.LCD_1IN14_V2_WIDTH) env.BLACK },
          calls ++
            [Call.malloc (env.LCD_1IN14_V2_HEIGHT * env.LCD_1IN14_V2_WIDTH * 2),
              Call.DEV_Delay_ms 100, Call.DEV_Module_Init, Call.DEV_SET_PWM 0,
              Call.LCD_1IN14_V2_Init env.HORIZONTAL, Call.LCD_1IN14_V2_Clear env.BLACK,
              Call.DEV_SET_PWM 75,
              Call.Paint_NewImage env.lcdWIDTH env.lcdHEIGHT 0 env.BLACK,
              Call.Paint_SetScale 65, Call.Paint_Clear env.BLACK,
              Call.Paint_SetRotate env.ROTATE_0, Call.Paint_Clear env.BLACK,
              Call.LCD_1IN14_V2_Display (List.replicate
                (env.LCD_1IN14_V2_HEIGHT * env.LCD_1IN14_V2_WIDTH) env.BLACK)]⟩) := by
  have hfb : Paint_Clear env.BLACK (Paint_Clear env.BLACK
      ((List.range (env.LCD_1IN14_V2_HEIGHT * env.LCD_1IN14_V2_WIDTH)).map o.garbage)) =
      List.replicate (env.LCD_1IN14_V2_HEIGHT * env.LCD_1IN14_V2_WIDTH) env.BLACK := by
    simp only [Paint_Clear, List.map_map]
    rw [List.eq_replicate_iff]
    refine ⟨by simp, ?_⟩
    intro b hb
    simp only [List.mem_map] at hb
    obtain ⟨_, _, rfl⟩ := hb
    rfl
  simp only [rp2040_geek_console_init, hm, hd, hfb, Bool.not_true, Bool.false_eq_true,
    if_false, ne_eq, not_true_eq_false, List.append_assoc, List.cons_append,
    List.nil_append]

/-- When `rp2040_geek_console_init`, called without a console, leaves a
console behind, both `malloc` and `DEV_Module_Init` have succeeded. -/
theorem init_ready_oracle (env : Env) (o : InitOracle) (w0 : World) (con1 : Console)
    (huninit : w0.g_console = none)
    (hready : (rp2040_geek_console_init env o w0).2.g_console = some con1) :
    o.mallocOk = true ∧ o.devModuleInit = 0 := by
  obtain ⟨g, calls⟩ := w0
  simp only at huninit
  subst huninit
  simp only [rp2040_geek_console_init] at hready
  split_ifs at hready with h1 h2
  constructor
  · simpa using h1
  · simpa using h2

/-- The cursor after any call on a Ready console is the wrap policy applied
to the cursor of the dispatch. -/
theorem putchar_cursor_eq (env : Env) (con : Console) (calls : List Call) (ch : Int) :
    ∃ con2 : Console,
      (rp2040_geek_console_putchar env ch ⟨some con, calls⟩).g_console = some con2 ∧
      (con2.cursor_x, con2.cursor_y) =
        wrapPolicy con.width con.height (dispatchCursor ch (con.cursor_x, con.cursor_y)) := by
  refine ⟨_, rfl, ?_⟩
  simp only [wrapPolicy, dispatchCursor]
  split_ifs <;> rfl

/-- The effect of one of the four handled control characters: only the
cursor changes, and no external call is made. -/
theorem putchar_control_eq (env : Env) (con : Console) (calls : List Call) (ch : Int)
    (hctl : ch = 13 ∨ ch = 10 ∨ ch = 9 ∨ ch = 11) :
    rp2040_geek_console_putchar env ch ⟨some con, calls⟩ =
      ⟨some { con with
          cursor_x := (wrapPolicy con.width con.height
            (dispatchCursor ch (con.cursor_x, con.cursor_y))).1
          cursor_y := (wrapPolicy con.width con.height
            (dispatchCursor ch (con.cursor_x, con.cursor_y))).2 },
        calls⟩ := by
  rcases hctl with h | h | h | h <;> subst h <;>
    simp [rp2040_geek_console_putchar, wrapPolicy, dispatchCursor]

/-! ## Sequences of calls -/

/-- The wrap policy leaves the cursor inside a non-empty grid. -/
theorem wrapPolicy_lt (W H : Nat) (cur : Nat × Nat) (hW : 1 ≤ W) (hH : 1 ≤ H) :
    (wrapPolicy W H cur).1 < W ∧ (wrapPolicy W H cur).2 < H := by
  simp only [wrapPolicy]
  constructor <;> split_ifs <;> omega

/-- One call on a Ready console: the console stays Ready with the same font,
grid and colours, the cursor ends inside a non-empty grid, and the calls
added to the log are at most one glyph draw, at the pixel position of the old
cursor and with the colours of the console. -/
theorem putchar_step_calls (env : Env) (con : Console) (calls : List Call) (ch : Int) :
    ∃ (con2 : Console) (made : List Call),
      rp2040_geek_console_putchar env ch ⟨some con, calls⟩ = ⟨some con2, calls ++ made⟩ ∧
      con2.font = con.font ∧ con2.width = con.width ∧ con2.height = con.height ∧
      con2.forecolor = con.forecolor ∧ con2.backcolor = con.backcolor ∧
      (1 ≤ con.width → 1 ≤ con.height →
        con2.cursor_x < con.width ∧ con2.cursor_y < con.height) ∧
      (∀ c ∈ made, ∃ ch2 : Int,
        c = Call.Paint_DrawChar (con.cursor_x * con.font.Width)
          (con.cursor_y * con.font.Height) ch2 con.backcolor con.forecolor) := by
  by_cases hctl : ch = 13 ∨ ch = 10 ∨ ch = 9 ∨ ch = 11
  · refine ⟨{ con with
        cursor_x := (wrapPolicy con.width con.height
          (dispatchCursor ch (con.cursor_x, con.cursor_y))).1
        cursor_y := (wrapPolicy con.width con.height
          (dispatchCursor ch (con.cursor_x, con.cursor_y))).2 },
      [], ?_, rfl, rfl, rfl, rfl, rfl, ?_, ?_⟩
    · rw [putchar_control_eq env con calls ch hctl, List.append_nil]
    · intro hW hH
      exact wrapPolicy_lt _ _ _ hW hH
    · intro c hc
      exact absurd hc (List.not_mem_nil _)
  · have hn : ch ≠ 13 ∧ ch ≠ 10 ∧ ch ≠ 9 ∧ ch ≠ 11 := by omega
    by_cases hp : 0x20 ≤ ch ∧ ch ≤ 0x7E
    · refine ⟨_, _, putchar_printable_eq env con calls ch hp, rfl, rfl, rfl, rfl, rfl, ?_, ?_⟩
      · intro hW hH
        exact wrapPolicy_lt _ _ _ hW hH
      · intro c hc
        exact ⟨ch, List.mem_singleton.mp hc⟩
    · refine ⟨_, _, putchar_other_eq env con calls ch hn hp, rfl, rfl, rfl, rfl, rfl, ?_, ?_⟩
      · intro hW hH
        exact wrapPolicy_lt _ _ _ hW hH
      · intro c hc
        exact ⟨0x20, List.mem_singleton.mp hc⟩

/-- Any sequence of calls on a Ready console adds only glyph draws to the
log, each with the colours of the console and at the pixel position of a
cell `(cx, cy)`; when the cursor starts inside a non-empty grid, every such
cell is inside the grid. -/
theorem putcharEach_calls (env : Env) (chs : List Int) :
    ∀ (con : Console) (calls : List Call),
      ∃ made : List Call,
        (putcharEach env chs ⟨some con, calls⟩).calls = calls ++ made ∧
        (∀ c ∈ made, ∃ (cx cy : Nat) (ch2 : Int),
          c = Call.Paint_DrawChar (cx * con.font.Width) (cy * con.font.Height) ch2
            con.backcolor con.forecolor ∧
          (1 ≤ con.width → 1 ≤ con.height → con.cursor_x < con.width →
            con.cursor_y < con.height → cx < con.width ∧ cy < con.height)) := by
  induction chs with
  | nil =>
    intro con calls
    exact ⟨[], by simp [putcharEach], fun c hc => absurd hc (List.not_mem_nil _)⟩
  | cons ch chs ih =>
    intro con calls
    obtain ⟨con2, made1, hstep, hf, hw, hh, hfc, hbc, hcur, hmade1⟩ :=
      putchar_step_calls env con calls ch
    obtain ⟨made2, hcalls2, hmade2⟩ := ih con2 (calls ++ made1)
    refine ⟨made1 ++ made2, ?_, ?_⟩
    · have hfold : putcharEach env (ch :: chs) ⟨some con, calls⟩ =
          putcharEach env chs (rp2040_geek_console_putchar env ch ⟨some con, calls⟩) := rfl
      rw [hfold, hstep, hcalls2, List.append_assoc]
    · intro c hc
      rcases List.mem_append.mp hc with h | h
      · obtain ⟨ch2, rfl⟩ := hmade1 c h
        exact ⟨con.cursor_x, con.cursor_y, ch2, rfl, fun _ _ hx hy => ⟨hx, hy⟩⟩
      · obtain ⟨cx, cy, ch2, hc2, hin⟩ := hmade2 c h
        rw [hf, hfc, hbc] at hc2
        refine ⟨cx, cy, ch2, hc2, ?_⟩
        intro hW hH _ _
        obtain ⟨hx2, hy2⟩ := hcur hW hH
        rw [hw, hh] at hin
        exact hin hW hH hx2 hy2

/-- Printable characters that fit into the rest of the row are drawn on
consecutive columns of the row of the cursor, and the cursor moves right by
their number. -/
theorem putcharEach_in_row (env : Env) (chs : List Int) :
    ∀ (con : Console) (calls : List Call),
      con.width < 65536 → con.height < 65536 → con.cursor_y < con.height →
      con.cursor_x + chs.length < con.width →
      (∀ ch ∈ chs, 0x20 ≤ ch ∧ ch ≤ 0x7E) →
      putcharEach env chs ⟨some con, calls⟩ =
        ⟨some { con with
            cursor_x := con.cursor_x + chs.length
            framebuffer := drawGlyphs env con.font con.backcolor con.forecolor
              con.framebuffer (rowGlyphs con.font con.cursor_y con.cursor_x chs) },
          calls ++ (rowGlyphs con.font con.cursor_y con.cursor_x chs).map
            (drawCall con.backcolor con.forecolor)⟩ := by
  induction chs with
  | nil =>
    intro con calls _ _ _ _ _
    simp [putcharEach, rowGlyphs, drawGlyphs]
  | cons ch chs ih =>
    intro con calls hW hH hy hlen hchs
    simp only [List.length_cons] at hlen
    have hch := hchs ch (List.mem_cons_self _ _)
    have hrest : ∀ c ∈ chs, 0x20 ≤ c ∧ c ≤ 0x7E :=
      fun c hc => hchs c (List.mem_cons_of_mem _ hc)
    have hwrap := wrapPolicy_in_grid con.width con.height con.cursor_x con.cursor_y
      (by omega) hy hW hH
    rw [if_pos (by omega : con.cursor_x + 1 < con.width)] at hwrap
    have hstep := putchar_printable_eq env con calls ch hch
    rw [hwrap] at hstep
    have hfold : putcharEach env (ch :: chs) ⟨some con, calls⟩ =
        putcharEach env chs (rp2040_geek_console_putchar env ch ⟨some con, calls⟩) := rfl
    have hnext := ih
      { con with
          cursor_x := con.cursor_x + 1
          cursor_y := con.cursor_y
          framebuffer := env.drawChar con.framebuffer (con.cursor_x * con.font.Width)
            (con.cursor_y * con.font.Height) ch con.font con.backcolor con.forecolor }
      (calls ++ [Call.Paint_DrawChar (con.cursor_x * con.font.Width)
          (con.cursor_y * con.font.Height) ch con.backcolor con.forecolor])
      hW hH hy (by simp only; omega) hrest
    rw [hfold, hstep, hnext]
    simp only [rowGlyphs, drawGlyphs, List.foldl_cons, List.map_cons, drawCall,
      List.length_cons, List.append_assoc, List.singleton_append, Nat.add_assoc,
      Nat.add_comm 1]

/-- Carriage return followed by line feed, with the cursor inside the grid
and not on its last row, moves the cursor to column 0 of the next row and
makes no external call. -/
theorem putcharEach_crlf (env : Env) (con : Console) (calls : List Call)
    (hx : con.cursor_x < con.width) (hy : con.cursor_y + 1 < con.height)
    (hH : con.height < 65536) :
    putcharEach env [13, 10] ⟨some con, calls⟩ =
      ⟨some { con with cursor_x := 0, cursor_y := con.cursor_y + 1 }, calls⟩ := by
  have hfold : putcharEach env [13, 10] ⟨some con, calls⟩ =
      rp2040_geek_console_putchar env 10
        (rp2040_geek_console_putchar env 13 ⟨some con, calls⟩) := rfl
  have h1 : (con.cursor_y + 1) % 65536 = con.cursor_y + 1 := Nat.mod_eq_of_lt (by omega)
  have hcr : wrapPolicy con.width con.height
      (dispatchCursor 13 (con.cursor_x, con.cursor_y)) = (0, con.cursor_y) := by
    simp only [wrapPolicy, dispatchCursor, if_true]
    split_ifs <;> first | rfl | omega
  have hlf : wrapPolicy con.width con.height (dispatchCursor 10 (0, con.cursor_y)) =
      (0, con.cursor_y + 1) := by
    have e : dispatchCursor 10 (0, con.cursor_y) = (0, (con.cursor_y + 1) % 65536) := by
      simp [dispatchCursor]
    rw [e]
    simp only [wrapPolicy, h1]
    split_ifs <;> first | rfl | omega
  rw [hfold, putchar_control_eq env con calls 13 (Or.inl rfl), hcr,
    putchar_control_eq env _ calls 10 (Or.inr (Or.inl rfl))]
  simp only [hlf]

/-- A string of printable characters that fit into the rest of the row,
written with `rp2040_geek_console_puts`. -/
theorem puts_in_row (env : Env) (bs tail : List Int) (con : Console) (calls : List Call)
    (hW : con.width < 65536) (hH : con.height < 65536) (hy : con.cursor_y < con.height)
    (hlen : con.cursor_x + bs.length < con.width)
    (hbs : ∀ b ∈ bs, 0x20 ≤ b ∧ b ≤ 0x7E) :
    rp2040_geek_console_puts env (bs ++ 0 :: tail) ⟨some con, calls⟩ =
      some ⟨some { con with
            cursor_x := con.cursor_x + bs.length
            framebuffer := drawGlyphs env con.font con.backcolor con.forecolor
              con.framebuffer (rowGlyphs con.font con.cursor_y con.cursor_x bs) },
          calls ++ (rowGlyphs con.font con.cursor_y con.cursor_x bs).map
            (drawCall con.backcolor con.forecolor)⟩ := by
  have hnz : ∀ b ∈ bs, b ≠ 0 := fun b hb => by have := hbs b hb; omega
  rw [puts_eq_putcharEach env bs tail hnz, putcharEach_in_row env bs con calls hW hH hy hlen hbs]

/-- The string `"\r\n"` written with `rp2040_geek_console_puts`, with the
cursor inside the grid and not on its last row. -/
theorem puts_crlf (env : Env) (tail : List Int) (con : Console) (calls : List Call)
    (hx : con.cursor_x < con.width) (hy : con.cursor_y + 1 < con.height)
    (hH : con.height < 65536) :
    rp2040_geek_console_puts env (13 :: 10 :: 0 :: tail) ⟨some con, calls⟩ =
      some ⟨some { con with cursor_x := 0, cursor_y := con.cursor_y + 1 }, calls⟩ := by
  rw [← putcharEach_crlf env con calls hx hy hH]
  exact puts_eq_putcharEach env [13, 10] tail (by decide) _

/-- A string of printable characters that fit into the rest of the row,
followed by `"\r\n"`, written with one call of `rp2040_geek_console_puts`. -/
theorem puts_in_row_crlf (env : Env) (bs tail : List Int) (con : Console)
    (calls : List Call) (hW : con.width < 65536) (hH : con.height < 65536)
    (hy : con.cursor_y + 1 < con.height) (hlen : con.cursor_x + bs.length < con.width)
    (hbs : ∀ b ∈ bs, 0x20 ≤ b ∧ b ≤ 0x7E) :
    rp2040_geek_console_puts env (bs ++ 13 :: 10 :: 0 :: tail) ⟨some con, calls⟩ =
      some ⟨some { con with
            cursor_x := 0
            cursor_y := con.cursor_y + 1
            framebuffer := drawGlyphs env con.font con.backcolor con.forecolor
              con.framebuffer (rowGlyphs con.font con.cursor_y con.cursor_x bs) },
          calls ++ (rowGlyphs con.font con.cursor_y con.cursor_x bs).map
            (drawCall con.backcolor con.forecolor)⟩ := by
  have hnz : ∀ b ∈ bs ++ [13, 10], b ≠ 0 := by
    intro b hb
    rcases List.mem_append.mp hb with h | h
    · have := hbs b h; omega
    · simp only [List.mem_cons, List.mem_singleton, List.not_mem_nil, or_false] at h
      omega
  have hsplit : bs ++ 13 :: 10 :: 0 :: tail = (bs ++ [13, 10]) ++ 0 :: tail := by simp
  have hfold : ∀ w : World, putcharEach env (bs ++ [13, 10]) w =
      putcharEach env [13, 10] (putcharEach env bs w) := by
    intro w
    simp only [putcharEach, List.foldl_append]
  rw [hsplit, puts_eq_putcharEach env (bs ++ [13, 10]) tail hnz, hfold,
    putcharEach_in_row env bs con calls hW hH (by omega) hlen hbs,
    putcharEach_crlf env
      { con with
          cursor_x := con.cursor_x + bs.length
          framebuffer := drawGlyphs env con.font con.backcolor con.forecolor
            con.framebuffer (rowGlyphs con.font con.cursor_y con.cursor_x bs) }
      _ hlen hy hH]

/-! ## The claims -/

/-- C1. Cursor invariant: on a console made Ready by `rp2040_geek_console_init`
whose grid has at least one column and one row, after every call of any finite
sequence of `rp2040_geek_console_putchar` calls with arbitrary characters
(16-bit cursor arithmetic as in the code) the grid is unchanged and
`cursor_x < width` and `cursor_y < height` hold. The sequence `chs` ranges
over all sequences, hence over every initial part of a longer one. -/
theorem C1_cursor_invariant (env : Env) (o : InitOracle) (w0 : World) (con1 : Console)
    (huninit : w0.g_console = none)
    (hready : (rp2040_geek_console_init env o w0).2.g_console = some con1)
    (hcols : 1 ≤ con1.width) (hrows : 1 ≤ con1.height) (chs : List Int) :
    ∃ con : Console,
      (putcharEach env chs (rp2040_geek_console_init env o w0).2).g_console = some con ∧
      con.width = con1.width ∧ con.height = con1.height ∧
      con.cursor_x < con.width ∧ con.cursor_y < con.height := by
  obtain ⟨hx, hy⟩ := init_cursor_origin env o w0 con1 huninit hready
  have hw1 : (rp2040_geek_console_init env o w0).2 =
      ⟨some con1, (rp2040_geek_console_init env o w0).2.calls⟩ := by
    rw [← hready]
  rw [hw1]
  exact putcharEach_ready_inv env chs con1 _ hcols hrows (by omega) (by omega)

/-- C1 at a concrete input: the 4 by 2 console of `demoEnv` after the bytes
`A`, tab, tab, line feed, `0xC3` (as a signed `char`), `B`, `C`, `D`, `E`. -/
theorem C1_cursor_invariant_witness :
    ∃ con : Console,
      (putcharEach demoEnv [65, 9, 9, 10, -61, 66, 67, 68, 69]
        (rp2040_geek_console_init demoEnv demoOracle ⟨none, []⟩).2).g_console = some con ∧
      con.width = 4 ∧ con.height = 2 ∧
      con.cursor_x < con.width ∧ con.cursor_y < con.height :=
  C1_cursor_invariant demoEnv demoOracle ⟨none, []⟩ (demoConsole 0 0) rfl (by decide)
    (by decide) (by decide) [65, 9, 9, 10, -61, 66, 67, 68, 69]

/-- C2. On a Ready console a character in `0x20..0x7E` issues exactly one
call, `Paint_DrawChar (cursor_x * Width, cursor_y * Height, ch, backcolor,
forecolor)` with cursor and colours of the state before the call (so no
`Paint_Clear` and no `LCD_1IN14_V2_Display`); afterwards the cursor is
`cursor_x + 1` (16-bit) subjected to the two wrap steps, the frame buffer is
the one the rasteriser returns, and font, grid and colours are unchanged. For
a cursor inside a grid of 16-bit dimensions no 16-bit reduction takes place:
the new cursor is `(cursor_x + 1, cursor_y)`, or `(0, cursor_y + 1)` after a
line wrap, or `(0, 0)` after a screen wrap. -/
theorem C2_putchar_printable (env : Env) (con : Console) (calls : List Call) (ch : Int)
    (hch : 0x20 ≤ ch ∧ ch ≤ 0x7E) :
    rp2040_geek_console_putchar env ch ⟨some con, calls⟩ =
      ⟨some { con with
          cursor_x := (wrapPolicy con.width con.height
            ((con.cursor_x + 1) % 65536, con.cursor_y)).1
          cursor_y := (wrapPolicy con.width con.height
            ((con.cursor_x + 1) % 65536, con.cursor_y)).2
          framebuffer := env.drawChar con.framebuffer (con.cursor_x * con.font.Width)
            (con.cursor_y * con.font.Height) ch con.font con.backcolor con.forecolor },
        calls ++ [Call.Paint_DrawChar (con.cursor_x * con.font.Width)
          (con.cursor_y * con.font.Height) ch con.backcolor con.forecolor]⟩ ∧
    (con.cursor_x < con.width → con.cursor_y < con.height →
      con.width < 65536 → con.height < 65536 →
      wrapPolicy con.width con.height ((con.cursor_x + 1) % 65536, con.cursor_y) =
        if con.cursor_x + 1 < con.width then (con.cursor_x + 1, con.cursor_y)
        else if con.cursor_y + 1 < con.height then (0, con.cursor_y + 1)
        else (0, 0)) := by
  refine ⟨putchar_printable_eq env con calls ch hch, ?_⟩
  intro hx hy hw hh
  have h1 : (con.cursor_x + 1) % 65536 = con.cursor_x + 1 := Nat.mod_eq_of_lt (by omega)
  have h2 : (con.cursor_y + 1) % 65536 = con.cursor_y + 1 := Nat.mod_eq_of_lt (by omega)
  simp only [wrapPolicy, h1, h2]
  split_ifs <;> first | rfl | omega

/-- C2 at a concrete input: `A` written at the last cell of the first row of
the demo console is drawn at pixel `(6, 0)` and the cursor wraps to `(0, 1)`. -/
theorem C2_putchar_printable_witness :
    rp2040_geek_console_putchar demoEnv 65 ⟨some (demoConsole 3 0), []⟩ =
      ⟨some { demoConsole 0 1 with framebuffer := (List.replicate 32 0).set 6 0xFFFF },
        [Call.Paint_DrawChar 6 0 65 0x0000 0xFFFF]⟩ :=
  (C2_putchar_printable demoEnv (demoConsole 3 0) [] 65 (by decide)).1.trans (by decide)

/-- C3 fails as stated: after `rp2040_geek_console_setcolor (0x0000, 0xFFFF)`
the background colour is `0xFFFF`, and `rp2040_geek_console_clear` still
fills the buffer with `BLACK` (`0x0000`), so not every pixel equals the
current background colour. -/
theorem C3_clear_ignores_backcolor :
    ¬ ∀ con : Console,
      (rp2040_geek_console_clear demoEnv
        (rp2040_geek_console_setcolor 0x0000 0xFFFF ⟨some (demoConsole 1 1), []⟩)).g_console
          = some con →
      ∀ p ∈ con.framebuffer, p = con.backcolor := by
  intro h
  have h0 := h { demoConsole 1 1 with forecolor := 0x0000, backcolor := 0xFFFF } (by decide)
    0 (by decide)
  exact absurd h0 (by decide)

/-- C3, amended. On a Ready console, whatever colours were last installed
with `rp2040_geek_console_setcolor (fg, bg)`, `rp2040_geek_console_clear`
issues the single call `Paint_Clear (BLACK)` (no display refresh), resets
every pixel of the buffer to `BLACK`, keeps the buffer size, and leaves
cursor, grid, font and the colours `fg`, `bg` unchanged; the pixels equal the
current background colour exactly when that colour is `BLACK` or the buffer
is empty. -/
theorem C3_clear_black (env : Env) (con : Console) (calls : List Call) (fg bg : Nat) :
    ∃ con2 : Console,
      rp2040_geek_console_clear env
          (rp2040_geek_console_setcolor fg bg ⟨some con, calls⟩) =
        ⟨some con2, calls ++ [Call.Paint_Clear env.BLACK]⟩ ∧
      (∀ p ∈ con2.framebuffer, p = env.BLACK) ∧
      con2.framebuffer.length = con.framebuffer.length ∧
      con2.cursor_x = con.cursor_x ∧ con2.cursor_y = con.cursor_y ∧
      con2.forecolor = fg ∧ con2.backcolor = bg ∧
      con2.width = con.width ∧ con2.height = con.height ∧ con2.font = con.font ∧
      ((∀ p ∈ con2.framebuffer, p = con2.backcolor) ↔
        (bg = env.BLACK ∨ con.framebuffer = [])) := by
  refine ⟨_, rfl, ?_, ?_, rfl, rfl, rfl, rfl, rfl, rfl, rfl, ?_⟩
  · intro p hp
    simp only [Paint_Clear, List.mem_map] at hp
    obtain ⟨_, _, rfl⟩ := hp
    rfl
  · simp [Paint_Clear]
  · simp only [Paint_Clear, List.mem_map]
    constructor
    · intro h
      cases hfb : con.framebuffer with
      | nil => exact Or.inr rfl
      | cons a t =>
        left
        exact (h env.BLACK ⟨a, by simp [hfb], rfl⟩).symm
    · rintro (h | h) p ⟨_, hq, rfl⟩
      · exact h.symm
      · rw [h] at hq
        exact absurd hq (List.not_mem_nil _)

/-- C4 fails as stated on the last row: on the 4 by 2 demo console with the
cursor at column 0 of row 1, writing the 4 characters `ABCD` leaves the
cursor at `(0, 0)`, not at row `1 + 1`. -/
theorem C4_last_row_wraps_to_top :
    (putcharEach demoEnv [65, 66, 67, 68] ⟨some (demoConsole 0 1), []⟩).g_console.map
        (fun con => (con.cursor_x, con.cursor_y)) = some (0, 0) ∧
    (putcharEach demoEnv [65, 66, 67, 68] ⟨some (demoConsole 0 1), []⟩).g_console.map
        (fun con => (con.cursor_x, con.cursor_y)) ≠ some (0, 1 + 1) := by
  decide

/-- C4, amended. One-line wrap: on a Ready console with a non-empty grid of
16-bit dimensions whose cursor is at column 0 of a row `r < height`, writing
exactly `width` characters, each in `0x20..0x7E`, leaves the cursor at column
0 of row `r + 1` when `r` is not the last row, and at `(0, 0)` when it is;
the grid is unchanged. -/
theorem C4_one_line_wrap (env : Env) (con : Console) (calls : List Call)
    (chs : List Int) (r : Nat) (hW : con.width < 65536) (hH : con.height < 65536)
    (hcols : 1 ≤ con.width) (hx : con.cursor_x = 0) (hy : con.cursor_y = r)
    (hr : r < con.height) (hlen : chs.length = con.width)
    (hchs : ∀ ch ∈ chs, 0x20 ≤ ch ∧ ch ≤ 0x7E) :
    ∃ con2 : Console,
      (putcharEach env chs ⟨some con, calls⟩).g_console = some con2 ∧
      con2.cursor_x = 0 ∧
      con2.cursor_y = (if r + 1 < con.height then r + 1 else 0) ∧
      con2.width = con.width ∧ con2.height = con.height := by
  rw [putcharEach_full_row env con calls chs hW hH (by omega) (by omega) hlen hchs]
  exact ⟨_, rfl, hx, by rw [hy], rfl, rfl⟩

/-- C4 (amended) at a concrete input: `ABCD` from `(0, 0)` on the 4 by 2 demo
console ends at `(0, 1)`. -/
theorem C4_one_line_wrap_witness :
    ∃ con2 : Console,
      (putcharEach demoEnv [65, 66, 67, 68] ⟨some (demoConsole 0 0), []⟩).g_console
        = some con2 ∧
      con2.cursor_x = 0 ∧ con2.cursor_y = 1 ∧ con2.width = 4 ∧ con2.height = 2 :=
  C4_one_line_wrap demoEnv (demoConsole 0 0) [] [65, 66, 67, 68] 0 (by decide) (by decide)
    (by decide) rfl rfl (by decide) rfl (by decide)

/-- C5. Full-screen wrap: on a Ready console with a non-empty grid of 16-bit
dimensions and the cursor at `(0, 0)`, writing exactly `width * height`
characters, each in `0x20..0x7E`, returns the cursor to `(0, 0)`. The calls
issued are exactly `width * height` glyph draws, the `i`-th one drawing the
`i`-th character on the cell in column `i % width` of row `i / width` (one
per cell, row by row); none of them is a `Paint_Clear`, and the frame buffer
is the one the rasteriser produced from these draws. -/
theorem C5_full_screen_wrap (env : Env) (con : Console) (calls : List Call)
    (chs : List Int) (hW : con.width < 65536) (hH : con.height < 65536)
    (hcols : 1 ≤ con.width) (hrows : 1 ≤ con.height)
    (hx : con.cursor_x = 0) (hy : con.cursor_y = 0)
    (hlen : chs.length = con.width * con.height)
    (hchs : ∀ ch ∈ chs, 0x20 ≤ ch ∧ ch ≤ 0x7E) :
    ∃ gs : List (Nat × Nat × Int),
      putcharEach env chs ⟨some con, calls⟩ =
        ⟨some { con with
            cursor_x := 0
            cursor_y := 0
            framebuffer := drawGlyphs env con.font con.backcolor con.forecolor
              con.framebuffer gs },
          calls ++ gs.map (drawCall con.backcolor con.forecolor)⟩ ∧
      gs.length = con.width * con.height ∧
      (∀ i : Nat, i < con.width * con.height →
        gs[i]? = chs[i]?.map (fun ch =>
          (i % con.width * con.font.Width, i / con.width * con.font.Height, ch))) ∧
      (∀ c ∈ gs.map (drawCall con.backcolor con.forecolor),
        ∀ color : Nat, c ≠ Call.Paint_Clear color) := by
  have hN : 0 < con.width * con.height := Nat.mul_pos (by omega) (by omega)
  refine ⟨glyphCells con.width con.height con.font 0 chs, ?_, ?_, ?_, ?_⟩
  · rw [putcharEach_printable env chs con calls 0 hW hH hN (by simp [hx]) (by simp [hy]) hchs,
      hlen, Nat.zero_add, Nat.mod_self, Nat.zero_mod, Nat.zero_div]
  · rw [glyphCells_length, hlen]
  · intro i hi
    rw [glyphCells_getElem, Nat.zero_add, Nat.mod_eq_of_lt hi]
  · intro c hc color
    simp only [List.mem_map, drawCall] at hc
    obtain ⟨g, _, rfl⟩ := hc
    exact fun h => Call.noConfusion h

/-- C5 at a concrete input: eight characters on the 4 by 2 demo console. -/
theorem C5_full_screen_wrap_witness :
    ∃ gs : List (Nat × Nat × Int),
      putcharEach demoEnv [65, 66, 67, 68, 69, 70, 71, 72] ⟨some (demoConsole 0 0), []⟩ =
        ⟨some { demoConsole 0 0 with
            framebuffer := drawGlyphs demoEnv ⟨2, 2⟩ 0x0000 0xFFFF (List.replicate 32 0) gs },
          [] ++ gs.map (drawCall 0x0000 0xFFFF)⟩ ∧
      gs.length = 4 * 2 ∧
      (∀ i : Nat, i < 4 * 2 →
        gs[i]? = [65, 66, 67, 68, 69, 70, 71, 72][i]?.map (fun ch =>
          (i % 4 * 2, i / 4 * 2, ch))) ∧
      (∀ c ∈ gs.map (drawCall 0x0000 0xFFFF), ∀ color : Nat, c ≠ Call.Paint_Clear color) :=
  C5_full_screen_wrap demoEnv (demoConsole 0 0) [] [65, 66, 67, 68, 69, 70, 71, 72]
    (by decide) (by decide) (by decide) (by decide) rfl rfl rfl (by decide)

/-- C6 fails as stated for a sequence with a zero byte: given the bytes
`A`, `0x00`, `B` (followed by the terminator), `rp2040_geek_console_puts`
stops at the first zero and draws one glyph, whereas
`rp2040_geek_console_putchar` on each of the three bytes draws three (the
zero byte as a space). -/
theorem C6_puts_stops_at_zero_byte :
    rp2040_geek_console_puts demoEnv ([65, 0, 66] ++ [0]) ⟨some (demoConsole 0 0), []⟩ ≠
      some (putcharEach demoEnv [65, 0, 66] ⟨some (demoConsole 0 0), []⟩) ∧
    (rp2040_geek_console_puts demoEnv ([65, 0, 66] ++ [0])
        ⟨some (demoConsole 0 0), []⟩).map (fun w => w.calls) =
      some [Call.Paint_DrawChar 0 0 65 0x0000 0xFFFF] ∧
    (putcharEach demoEnv [65, 0, 66] ⟨some (demoConsole 0 0), []⟩).calls =
      [Call.Paint_DrawChar 0 0 65 0x0000 0xFFFF, Call.Paint_DrawChar 2 0 32 0x0000 0xFFFF,
        Call.Paint_DrawChar 4 0 66 0x0000 0xFFFF] := by
  decide

/-- C6, amended. For every program state (Ready or Uninitialized) and every
finite sequence `bs` of characters none of which is zero, passed as a
zero-terminated string (whatever follows the terminator in memory),
`rp2040_geek_console_puts` returns, and the state it leaves, log of external
calls included, is the one left by calling `rp2040_geek_console_putchar` on
each character of `bs`, in order, one at a time. -/
theorem C6_puts_refines_putchar (env : Env) (w : World) (bs tail : List Int)
    (hbs : ∀ b ∈ bs, b ≠ 0) :
    rp2040_geek_console_puts env (bs ++ 0 :: tail) w = some (putcharEach env bs w) :=
  puts_eq_putcharEach env bs tail hbs w

/-- C6 (amended) at a concrete input: the string `"AB\r\nCD"`. -/
theorem C6_puts_refines_putchar_witness :
    rp2040_geek_console_puts demoEnv ([65, 66, 13, 10, 67, 68] ++ 0 :: [])
        ⟨some (demoConsole 0 0), []⟩ =
      some (putcharEach demoEnv [65, 66, 13, 10, 67, 68] ⟨some (demoConsole 0 0), []⟩) :=
  C6_puts_refines_putchar demoEnv ⟨some (demoConsole 0 0), []⟩ [65, 66, 13, 10, 67, 68] []
    (by decide)

/-- C7. Space substitution: on a Ready console, for a byte `b` that is
neither in `0x20..0x7E` nor one of `'\r'`, `'\n'`, `'\t'`, `'\v'`, taken
as a signed or an unsigned `char`, `rp2040_geek_console_putchar` produces
exactly the state (and log of calls) that it produces for `0x20`: the one
call `Paint_DrawChar` with the character `0x20` at the pixel position of the
cursor with the current colours, and the cursor advanced by one column and
subjected to the wrap steps; with room left in the row the new cursor is
`(cursor_x + 1, cursor_y)`. -/
theorem C7_space_substitution (env : Env) (con : Console) (calls : List Call)
    (isSigned : Bool) (b : Nat) (hb : b < 256) (hnp : ¬ (0x20 ≤ b ∧ b ≤ 0x7E))
    (hctl : b ≠ 13 ∧ b ≠ 10 ∧ b ≠ 9 ∧ b ≠ 11) :
    rp2040_geek_console_putchar env (charOfByte isSigned b) ⟨some con, calls⟩ =
      rp2040_geek_console_putchar env 0x20 ⟨some con, calls⟩ ∧
    rp2040_geek_console_putchar env (charOfByte isSigned b) ⟨some con, calls⟩ =
      ⟨some { con with
          cursor_x := (wrapPolicy con.width con.height
            ((con.cursor_x + 1) % 65536, con.cursor_y)).1
          cursor_y := (wrapPolicy con.width con.height
            ((con.cursor_x + 1) % 65536, con.cursor_y)).2
          framebuffer := env.drawChar con.framebuffer (con.cursor_x * con.font.Width)
            (con.cursor_y * con.font.Height) 0x20 con.font con.backcolor con.forecolor },
        calls ++ [Call.Paint_DrawChar (con.cursor_x * con.font.Width)
          (con.cursor_y * con.font.Height) 0x20 con.backcolor con.forecolor]⟩ ∧
    (con.cursor_x + 1 < con.width → con.cursor_y < con.height → con.width < 65536 →
      wrapPolicy con.width con.height ((con.cursor_x + 1) % 65536, con.cursor_y) =
        (con.cursor_x + 1, con.cursor_y)) := by
  have hc : (charOfByte isSigned b ≠ 13 ∧ charOfByte isSigned b ≠ 10 ∧
      charOfByte isSigned b ≠ 9 ∧ charOfByte isSigned b ≠ 11) ∧
      ¬ (0x20 ≤ charOfByte isSigned b ∧ charOfByte isSigned b ≤ 0x7E) := by
    unfold charOfByte
    cases isSigned <;> simp only [Bool.false_and, Bool.true_and, decide_eq_true_eq] <;>
      split_ifs <;> omega
  refine ⟨?_, putchar_other_eq env con calls _ hc.1 hc.2, ?_⟩
  · rw [putchar_other_eq env con calls _ hc.1 hc.2,
      putchar_printable_eq env con calls 0x20 (by decide)]
  · intro hx hy hW
    have h1 : (con.cursor_x + 1) % 65536 = con.cursor_x + 1 := Nat.mod_eq_of_lt (by omega)
    simp only [wrapPolicy, h1]
    split_ifs <;> first | rfl | omega

/-- C7 at a concrete input: the byte `0x01` and, in the second component, the
byte `0xC3` as a signed `char`, on the demo console with the cursor at
`(1, 1)`. -/
theorem C7_space_substitution_witness :
    (rp2040_geek_console_putchar demoEnv (charOfByte false 0x01)
        ⟨some (demoConsole 1 1), []⟩ =
      rp2040_geek_console_putchar demoEnv 0x20 ⟨some (demoConsole 1 1), []⟩) ∧
    (rp2040_geek_console_putchar demoEnv (charOfByte true 0xC3)
        ⟨some (demoConsole 1 1), []⟩).calls = [Call.Paint_DrawChar 2 2 0x20 0x0000 0xFFFF] :=
  ⟨(C7_space_substitution demoEnv (demoConsole 1 1) [] false 0x01 (by decide) (by decide)
      (by decide)).1,
    (congrArg World.calls (C7_space_substitution demoEnv (demoConsole 1 1) [] true 0xC3
      (by decide) (by decide) (by decide)).2.1).trans (by decide)⟩

/-- C8. Silent no-op before initialisation: without a console (`g_console`
is `NULL`) each of `rp2040_geek_console_clear`, `rp2040_geek_console_setcolor`,
`rp2040_geek_console_putchar`, `rp2040_geek_console_puts` (on any
zero-terminated string) and `rp2040_geek_console_flush` leaves the program
state as it was: still no console and not one external call added to the log
(no glyph draw, no clear, no display refresh); `rp2040_geek_console_puts`
returns, and none of the functions has a result that could report a failure. -/
theorem C8_uninitialized_noop (env : Env) (calls : List Call) (fg bg : Nat) (ch : Int)
    (str : List Int) (hterm : 0 ∈ str) :
    rp2040_geek_console_clear env ⟨none, calls⟩ = ⟨none, calls⟩ ∧
    rp2040_geek_console_setcolor fg bg ⟨none, calls⟩ = ⟨none, calls⟩ ∧
    rp2040_geek_console_putchar env ch ⟨none, calls⟩ = ⟨none, calls⟩ ∧
    rp2040_geek_console_puts env str ⟨none, calls⟩ = some ⟨none, calls⟩ ∧
    rp2040_geek_console_flush ⟨none, calls⟩ = ⟨none, calls⟩ :=
  ⟨rfl, rfl, rfl, puts_uninit env calls str hterm, rfl⟩

/-- C8 at a concrete input: the string `"debugprobe\r\n"` and the colours of
`board_ui_init`. -/
theorem C8_uninitialized_noop_witness :
    rp2040_geek_console_clear demoEnv ⟨none, []⟩ = ⟨none, []⟩ ∧
    rp2040_geek_console_setcolor 0x8430 0x0000 ⟨none, []⟩ = ⟨none, []⟩ ∧
    rp2040_geek_console_putchar demoEnv 65 ⟨none, []⟩ = ⟨none, []⟩ ∧
    rp2040_geek_console_puts demoEnv
        [100, 101, 98, 117, 103, 112, 114, 111, 98, 101, 13, 10, 0] ⟨none, []⟩ =
      some ⟨none, []⟩ ∧
    rp2040_geek_console_flush ⟨none, []⟩ = ⟨none, []⟩ :=
  C8_uninitialized_noop demoEnv [] 0x8430 0x0000 65
    [100, 101, 98, 117, 103, 112, 114, 111, 98, 101, 13, 10, 0] (by decide)

/-- C9. Rollback of `rp2040_geek_console_init`: called without a console,
when `malloc` fails or `DEV_Module_Init` returns non-zero, it returns `false`
and `g_console` is `NULL` afterwards as before. The external calls made are
`malloc` alone when the allocation failed, and `malloc`, `DEV_Delay_ms (100)`,
`DEV_Module_Init`, `free` when bring-up failed (the block is released); none
of them is a `Paint_Clear`, a `Paint_DrawChar` or an `LCD_1IN14_V2_Display`. -/
theorem C9_init_rollback (env : Env) (o : InitOracle) (calls : List Call)
    (hfail : o.mallocOk = false ∨ o.devModuleInit ≠ 0) :
    ∃ made : List Call,
      rp2040_geek_console_init env o ⟨none, calls⟩ = (false, ⟨none, calls ++ made⟩) ∧
      (o.mallocOk = false →
        made = [Call.malloc (env.LCD_1IN14_V2_HEIGHT * env.LCD_1IN14_V2_WIDTH * 2)]) ∧
      (o.mallocOk = true →
        made = [Call.malloc (env.LCD_1IN14_V2_HEIGHT * env.LCD_1IN14_V2_WIDTH * 2),
          Call.DEV_Delay_ms 100, Call.DEV_Module_Init, Call.free]) ∧
      (∀ c ∈ made, (∀ color : Nat, c ≠ Call.Paint_Clear color) ∧
        (∀ image : List Nat, c ≠ Call.LCD_1IN14_V2_Display image) ∧
        (∀ (x y : Nat) (ch : Int) (back fore : Nat),
          c ≠ Call.Paint_DrawChar x y ch back fore)) := by
  cases hm : o.mallocOk with
  | false =>
    refine ⟨[Call.malloc (env.LCD_1IN14_V2_HEIGHT * env.LCD_1IN14_V2_WIDTH * 2)],
      ?_, fun _ => rfl, fun h => absurd h (by simp), ?_⟩
    · simp [rp2040_geek_console_init, hm]
    · intro c hc
      simp only [List.mem_singleton] at hc
      subst hc
      exact ⟨fun _ h => Call.noConfusion h, fun _ h => Call.noConfusion h,
        fun _ _ _ _ _ h => Call.noConfusion h⟩
  | true =>
    have hd : o.devModuleInit ≠ 0 := by
      rcases hfail with h | h
      · rw [hm] at h; exact absurd h (by simp)
      · exact h
    refine ⟨[Call.malloc (env.LCD_1IN14_V2_HEIGHT * env.LCD_1IN14_V2_WIDTH * 2),
      Call.DEV_Delay_ms 100, Call.DEV_Module_Init, Call.free],
      ?_, fun h => absurd h (by simp), fun _ => rfl, ?_⟩
    · simp [rp2040_geek_console_init, hm, hd]
    · intro c hc
      simp only [List.mem_cons, List.mem_singleton, List.not_mem_nil, or_false] at hc
      rcases hc with rfl | rfl | rfl | rfl <;>
        exact ⟨fun _ h => Call.noConfusion h, fun _ h => Call.noConfusion h,
          fun _ _ _ _ _ h => Call.noConfusion h⟩

/-- C9 at a concrete input: `malloc` succeeds and `DEV_Module_Init` returns 1. -/
theorem C9_init_rollback_witness :
    ∃ made : List Call,
      rp2040_geek_console_init demoEnv ⟨true, fun i => i, 1⟩ ⟨none, []⟩ =
        (false, ⟨none, [] ++ made⟩) ∧
      ((true = false) → made = [Call.malloc (4 * 8 * 2)]) ∧
      ((true = true) →
        made = [Call.malloc (4 * 8 * 2), Call.DEV_Delay_ms 100, Call.DEV_Module_Init,
          Call.free]) ∧
      (∀ c ∈ made, (∀ color : Nat, c ≠ Call.Paint_Clear color) ∧
        (∀ image : List Nat, c ≠ Call.LCD_1IN14_V2_Display image) ∧
        (∀ (x y : Nat) (ch : Int) (back fore : Nat),
          c ≠ Call.Paint_DrawChar x y ch back fore)) :=
  C9_init_rollback demoEnv ⟨true, fun i => i, 1⟩ [] (Or.inr (by decide))

/-- C10. Idempotence of `rp2040_geek_console_init`: on a Ready program state
it returns `true` and leaves the state exactly as it was: the console
(cursor, colours, grid, frame buffer) and the log of external calls, so no
allocation, bring-up, clear or display refresh takes place. Hence a second
call in a row returns the result and state of the first. -/
theorem C10_init_idempotent (env : Env) (o1 o2 : InitOracle) (w : World) (con : Console)
    (hready : w.g_console = some con) :
    rp2040_geek_console_init env o1 w = (true, w) ∧
    rp2040_geek_console_init env o2 (rp2040_geek_console_init env o1 w).2 =
      rp2040_geek_console_init env o1 w := by
  have h : ∀ o : InitOracle, rp2040_geek_console_init env o w = (true, w) := by
    intro o
    simp only [rp2040_geek_console_init, hready]
  rw [h o1]
  exact ⟨rfl, h o2⟩

/-- C10 at a concrete input: the demo console with the cursor at `(2, 1)`
and one earlier call in the log, with oracles that would make a fresh
initialisation fail. -/
theorem C10_init_idempotent_witness :
    rp2040_geek_console_init demoEnv ⟨false, fun _ => 7, 1⟩
        ⟨some (demoConsole 2 1), [Call.DEV_SET_PWM 75]⟩ =
      (true, ⟨some (demoConsole 2 1), [Call.DEV_SET_PWM 75]⟩) ∧
    rp2040_geek_console_init demoEnv demoOracle
        (rp2040_geek_console_init demoEnv ⟨false, fun _ => 7, 1⟩
          ⟨some (demoConsole 2 1), [Call.DEV_SET_PWM 75]⟩).2 =
      rp2040_geek_console_init demoEnv ⟨false, fun _ => 7, 1⟩
        ⟨some (demoConsole 2 1), [Call.DEV_SET_PWM 75]⟩ :=
  C10_init_idempotent demoEnv ⟨false, fun _ => 7, 1⟩ demoOracle
    ⟨some (demoConsole 2 1), [Call.DEV_SET_PWM 75]⟩ (demoConsole 2 1) rfl

/-- C11. Success of `rp2040_geek_console_init`: called without a console,
with `malloc` and `DEV_Module_Init` succeeding (font metrics at least 1 and
display metrics 16-bit values), it returns `true` and leaves a console with
cursor `(0, 0)`, `width = LCD_1IN14_V2.WIDTH / Font16.Width`,
`height = LCD_1IN14_V2.HEIGHT / Font16.Height`, foreground `WHITE`,
background `BLACK` and every pixel of the frame buffer equal to the
background colour. The external calls are those listed, in this order:
exactly one `LCD_1IN14_V2_Display`, of that frame buffer, as the last call,
after the `Paint_Clear` calls. -/
theorem C11_init_success (env : Env) (o : InitOracle) (calls : List Call)
    (hm : o.mallocOk = true) (hd : o.devModuleInit = 0)
    (_hfw : 1 ≤ env.Font16.Width) (_hfh : 1 ≤ env.Font16.Height)
    (hw16 : env.lcdWIDTH < 65536) (hh16 : env.lcdHEIGHT < 65536) :
    ∃ con : Console,
      rp2040_geek_console_init env o ⟨none, calls⟩ =
        (true, ⟨some con, calls ++
          [Call.malloc (env.LCD_1IN14_V2_HEIGHT * env.LCD_1IN14_V2_WIDTH * 2),
            Call.DEV_Delay_ms 100, Call.DEV_Module_Init, Call.DEV_SET_PWM 0,
            Call.LCD_1IN14_V2_Init env.HORIZONTAL, Call.LCD_1IN14_V2_Clear env.BLACK,
            Call.DEV_SET_PWM 75,
            Call.Paint_NewImage env.lcdWIDTH env.lcdHEIGHT 0 env.BLACK,
            Call.Paint_SetScale 65, Call.Paint_Clear env.BLACK,
            Call.Paint_SetRotate env.ROTATE_0, Call.Paint_Clear env.BLACK,
            Call.LCD_1IN14_V2_Display con.framebuffer]⟩) ∧
      con.cursor_x = 0 ∧ con.cursor_y = 0 ∧
      con.width = env.lcdWIDTH / env.Font16.Width ∧
      con.height = env.lcdHEIGHT / env.Font16.Height ∧
      con.font = env.Font16 ∧
      con.forecolor = env.WHITE ∧ con.backcolor = env.BLACK ∧
      (∀ p ∈ con.framebuffer, p = con.backcolor) ∧
      con.framebuffer.length = env.LCD_1IN14_V2_HEIGHT * env.LCD_1IN14_V2_WIDTH := by
  refine ⟨_, init_success_eq env o calls hm hd, rfl, rfl, ?_, ?_, rfl, rfl, rfl, ?_, ?_⟩
  · exact Nat.mod_eq_of_lt (lt_of_le_of_lt (Nat.div_le_self _ _) hw16)
  · exact Nat.mod_eq_of_lt (lt_of_le_of_lt (Nat.div_le_self _ _) hh16)
  · intro p hp
    exact List.eq_of_mem_replicate hp
  · exact List.length_replicate _ _

/-- C11 at a concrete input: the demo display of 8 by 4 pixels with the 2 by
2 font gives a grid of 4 columns and 2 rows over 32 black pixels. -/
theorem C11_init_success_witness :
    ∃ con : Console,
      rp2040_geek_console_init demoEnv demoOracle ⟨none, []⟩ =
        (true, ⟨some con, [] ++
          [Call.malloc (4 * 8 * 2),
            Call.DEV_Delay_ms 100, Call.DEV_Module_Init, Call.DEV_SET_PWM 0,
            Call.LCD_1IN14_V2_Init 1, Call.LCD_1IN14_V2_Clear 0x0000,
            Call.DEV_SET_PWM 75,
            Call.Paint_NewImage 8 4 0 0x0000,
            Call.Paint_SetScale 65, Call.Paint_Clear 0x0000,
            Call.Paint_SetRotate 0, Call.Paint_Clear 0x0000,
            Call.LCD_1IN14_V2_Display con.framebuffer]⟩) ∧
      con.cursor_x = 0 ∧ con.cursor_y = 0 ∧
      con.width = 8 / 2 ∧ con.height = 4 / 2 ∧
      con.font = ⟨2, 2⟩ ∧
      con.forecolor = 0xFFFF ∧ con.backcolor = 0x0000 ∧
      (∀ p ∈ con.framebuffer, p = con.backcolor) ∧
      con.framebuffer.length = 4 * 8 :=
  C11_init_success demoEnv demoOracle [] rfl rfl (by decide) (by decide) (by decide)
    (by decide)

/-- C12. Carriage return: on a Ready console with the cursor `(c, r)` inside
the (hence non-empty) grid, `rp2040_geek_console_putchar ('\r')` sets
`cursor_x` to 0, leaves `cursor_y` equal to `r` and everything else as it
was, and makes no external call (no glyph draw). -/
theorem C12_carriage_return (env : Env) (con : Console) (calls : List Call)
    (hx : con.cursor_x < con.width) (hy : con.cursor_y < con.height) :
    rp2040_geek_console_putchar env 13 ⟨some con, calls⟩ =
      ⟨some { con with cursor_x := 0, cursor_y := con.cursor_y }, calls⟩ := by
  have hwrap : wrapPolicy con.width con.height
      (dispatchCursor 13 (con.cursor_x, con.cursor_y)) = (0, con.cursor_y) := by
    simp only [wrapPolicy, dispatchCursor, if_true]
    split_ifs <;> first | rfl | omega
  rw [putchar_control_eq env con calls 13 (Or.inl rfl), hwrap]

/-- C12 at a concrete input: the demo console with the cursor at `(3, 1)`. -/
theorem C12_carriage_return_witness :
    rp2040_geek_console_putchar demoEnv 13 ⟨some (demoConsole 3 1), []⟩ =
      ⟨some (demoConsole 0 1), []⟩ :=
  C12_carriage_return demoEnv (demoConsole 3 1) [] (by decide) (by decide)

/-- C13. Tab: on a Ready console with the cursor `(c, r)` inside a grid of at
most 65528 columns (and a 16-bit number of rows),
`rp2040_geek_console_putchar ('\t')` makes no external call and leaves the
cursor at `(c + 8, r)` when `c + 8 < width`, and otherwise at `(0, r + 1)`
when `r + 1 < height` or at `(0, 0)` when `r` is the last row; nothing else
changes. So the row advances by at most one, and on a grid of 8 or fewer
columns the tab always ends at column 0. -/
theorem C13_tab_single_wrap (env : Env) (con : Console) (calls : List Call)
    (hx : con.cursor_x < con.width) (hy : con.cursor_y < con.height)
    (hW : con.width ≤ 65528) (hH : con.height < 65536) :
    ∃ nx ny : Nat,
      rp2040_geek_console_putchar env 9 ⟨some con, calls⟩ =
        ⟨some { con with cursor_x := nx, cursor_y := ny }, calls⟩ ∧
      (nx, ny) =
        (if con.cursor_x + 8 < con.width then (con.cursor_x + 8, con.cursor_y)
          else if con.cursor_y + 1 < con.height then (0, con.cursor_y + 1)
          else (0, 0)) ∧
      ny ≤ con.cursor_y + 1 ∧
      (con.width ≤ 8 → nx = 0) := by
  have h8 : (con.cursor_x + 8) % 65536 = con.cursor_x + 8 := Nat.mod_eq_of_lt (by omega)
  have h1 : (con.cursor_y + 1) % 65536 = con.cursor_y + 1 := Nat.mod_eq_of_lt (by omega)
  have hwrap : wrapPolicy con.width con.height
      (dispatchCursor 9 (con.cursor_x, con.cursor_y)) =
        (if con.cursor_x + 8 < con.width then (con.cursor_x + 8, con.cursor_y)
          else if con.cursor_y + 1 < con.height then (0, con.cursor_y + 1)
          else (0, 0)) := by
    have e : dispatchCursor 9 (con.cursor_x, con.cursor_y) =
        ((con.cursor_x + 8) % 65536, con.cursor_y) := by
      simp [dispatchCursor]
    rw [e]
    simp only [wrapPolicy, h8, h1]
    split_ifs <;> first | rfl | omega
  refine ⟨_, _, putchar_control_eq env con calls 9 (Or.inr (Or.inr (Or.inl rfl))), ?_, ?_, ?_⟩
  · rw [hwrap]
  · rw [hwrap]
    split_ifs <;> simp
  · intro h
    rw [hwrap]
    split_ifs <;> first | rfl | omega

/-- C13 at a concrete input: on the 4-column demo console a tab at `(1, 0)`
ends at `(0, 1)`. -/
theorem C13_tab_single_wrap_witness :
    ∃ nx ny : Nat,
      rp2040_geek_console_putchar demoEnv 9 ⟨some (demoConsole 1 0), []⟩ =
        ⟨some { demoConsole 1 0 with cursor_x := nx, cursor_y := ny }, []⟩ ∧
      (nx, ny) = (0, 1) ∧ ny ≤ 0 + 1 ∧ (4 ≤ 8 → nx = 0) :=
  C13_tab_single_wrap demoEnv (demoConsole 1 0) [] (by decide) (by decide) (by decide)
    (by decide)

/-- C14. Line feed and vertical tab: on a Ready console with the cursor
`(c, r)` inside a grid with a 16-bit number of rows, for `ch` one of `'\n'`
and `'\v'`, `rp2040_geek_console_putchar (ch)` makes no external call and
leaves the cursor at `(c, r + 1)` when `r + 1 < height` and at `(0, 0)` when
`r` is the last row; nothing else changes. From every program state
whatsoever, `'\v'` and `'\n'` produce identical states. -/
theorem C14_line_feed (env : Env) (con : Console) (calls : List Call) (ch : Int)
    (hch : ch = 10 ∨ ch = 11)
    (hx : con.cursor_x < con.width) (hy : con.cursor_y < con.height)
    (hH : con.height < 65536) :
    rp2040_geek_console_putchar env ch ⟨some con, calls⟩ =
      ⟨some { con with
          cursor_x := if con.cursor_y + 1 < con.height then con.cursor_x else 0
          cursor_y := if con.cursor_y + 1 < con.height then con.cursor_y + 1 else 0 },
        calls⟩ ∧
    (∀ w : World,
      rp2040_geek_console_putchar env 11 w = rp2040_geek_console_putchar env 10 w) := by
  have h1 : (con.cursor_y + 1) % 65536 = con.cursor_y + 1 := Nat.mod_eq_of_lt (by omega)
  have hwrap : wrapPolicy con.width con.height
      (dispatchCursor ch (con.cursor_x, con.cursor_y)) =
        (if con.cursor_y + 1 < con.height then con.cursor_x else 0,
          if con.cursor_y + 1 < con.height then con.cursor_y + 1 else 0) := by
    have e : dispatchCursor ch (con.cursor_x, con.cursor_y) =
        (con.cursor_x, (con.cursor_y + 1) % 65536) := by
      rcases hch with h | h <;> subst h <;> simp [dispatchCursor]
    rw [e]
    simp only [wrapPolicy, h1]
    split_ifs <;> first | rfl | omega
  constructor
  · rw [putchar_control_eq env con calls ch (by omega), hwrap]
  · intro w
    obtain ⟨g, c⟩ := w
    cases g with
    | none => rfl
    | some con0 =>
      rw [putchar_control_eq env con0 c 11 (by decide),
        putchar_control_eq env con0 c 10 (by decide)]
      simp [dispatchCursor]

/-- C14 at a concrete input: a vertical tab on the last row of the demo
console, cursor `(2, 1)`, ends at `(0, 0)`. -/
theorem C14_line_feed_witness :
    rp2040_geek_console_putchar demoEnv 11 ⟨some (demoConsole 2 1), []⟩ =
      ⟨some (demoConsole 0 0), []⟩ :=
  (C14_line_feed demoEnv (demoConsole 2 1) [] 11 (Or.inr rfl) (by decide) (by decide)
    (by decide)).1.trans (by decide)

/-- C15. Worked example: on a Ready console with a grid of 4 columns and 2
rows, glyphs of 16 by 16 pixels and the cursor at `(0, 0)`, writing the bytes
of `"AB\r\nCD"` (one call after the other, or as a string) issues exactly
four glyph draws, `A` at pixel `(0, 0)`, `B` at `(16, 0)`, `C` at `(0, 16)`
and `D` at `(16, 16)`, in that order and with the colours of the console;
the cursor after each byte is `(1,0)`, `(2,0)`, `(0,0)`, `(0,1)`, `(1,1)`,
`(2,1)`; and at every byte the cursor of the dispatch is already inside the
grid, so neither wrap step fires. -/
theorem C15_worked_example (env : Env) (con : Console) (calls : List Call)
    (hw : con.width = 4) (hh : con.height = 2) (hf : con.font = ⟨16, 16⟩)
    (hx : con.cursor_x = 0) (hy : con.cursor_y = 0) :
    putcharEach env [65, 66, 13, 10, 67, 68] ⟨some con, calls⟩ =
      ⟨some { con with
          cursor_x := 2
          cursor_y := 1
          framebuffer := drawGlyphs env con.font con.backcolor con.forecolor
            con.framebuffer [(0, 0, 65), (16, 0, 66), (0, 16, 67), (16, 16, 68)] },
        calls ++
          [Call.Paint_DrawChar 0 0 65 con.backcolor con.forecolor,
            Call.Paint_DrawChar 16 0 66 con.backcolor con.forecolor,
            Call.Paint_DrawChar 0 16 67 con.backcolor con.forecolor,
            Call.Paint_DrawChar 16 16 68 con.backcolor con.forecolor]⟩ ∧
    rp2040_geek_console_puts env [65, 66, 13, 10, 67, 68, 0] ⟨some con, calls⟩ =
      some (putcharEach env [65, 66, 13, 10, 67, 68] ⟨some con, calls⟩) ∧
    cursorsAfterEach env [65, 66, 13, 10, 67, 68] ⟨some con, calls⟩ =
      [some (1, 0), some (2, 0), some (0, 0), some (0, 1), some (1, 1), some (2, 1)] ∧
    (∀ p ∈ List.zipWith dispatchCursor [65, 66, 13, 10, 67, 68]
        [(0, 0), (1, 0), (2, 0), (0, 0), (0, 1), (1, 1)],
      p.1 < con.width ∧ p.2 < con.height) := by
  obtain ⟨font, x, y, W, H, fore, back, fb⟩ := con
  simp only at hw hh hf hx hy
  subst hw hh hf hx hy
  refine ⟨?_, ?_, ?_, ?_⟩
  · simp [putcharEach, rp2040_geek_console_putchar, drawGlyphs]
  · exact puts_eq_putcharEach env [65, 66, 13, 10, 67, 68] [] (by decide) _
  · simp [cursorsAfterEach, rp2040_geek_console_putchar]
  · show ∀ p ∈ List.zipWith dispatchCursor [65, 66, 13, 10, 67, 68]
        [(0, 0), (1, 0), (2, 0), (0, 0), (0, 1), (1, 1)], p.1 < 4 ∧ p.2 < 2
    decide

/-- C15 at a concrete input: a console with 16 by 16 glyphs, a grid of 4 by
2, white on black, over an empty frame buffer, with the rasteriser of
`demoEnv`. -/
theorem C15_worked_example_witness :
    cursorsAfterEach demoEnv [65, 66, 13, 10, 67, 68]
        ⟨some ⟨⟨16, 16⟩, 0, 0, 4, 2, 0xFFFF, 0x0000, []⟩, []⟩ =
      [some (1, 0), some (2, 0), some (0, 0), some (0, 1), some (1, 1), some (2, 1)] ∧
    (putcharEach demoEnv [65, 66, 13, 10, 67, 68]
        ⟨some ⟨⟨16, 16⟩, 0, 0, 4, 2, 0xFFFF, 0x0000, []⟩, []⟩).calls =
      [Call.Paint_DrawChar 0 0 65 0x0000 0xFFFF, Call.Paint_DrawChar 16 0 66 0x0000 0xFFFF,
        Call.Paint_DrawChar 0 16 67 0x0000 0xFFFF,
        Call.Paint_DrawChar 16 16 68 0x0000 0xFFFF] :=
  ⟨(C15_worked_example demoEnv ⟨⟨16, 16⟩, 0, 0, 4, 2, 0xFFFF, 0x0000, []⟩ []
      rfl rfl rfl rfl rfl).2.2.1,
    (congrArg World.calls (C15_worked_example demoEnv
      ⟨⟨16, 16⟩, 0, 0, 4, 2, 0xFFFF, 0x0000, []⟩ [] rfl rfl rfl rfl rfl).1).trans
      (by decide)⟩

/-- C16. The entry point `board_ui_init`: when it starts without a console,
`rp2040_geek_console_init` succeeds with a grid of at least 11 columns and 3
rows, and `usb_serial` is a string of `n < width` characters each in
`0x20..0x7E`, it returns and the calls after those of the initialisation
are: the 10 glyph draws of `debugprobe` on columns 0..9 of row 0 with
background `BLACK` and foreground `WHITE`, then the `n` glyph draws of
`usb_serial` on columns 0..n-1 of row 1 with background `BLACK` and
foreground `GRAY`, then one `LCD_1IN14_V2_Display` of the frame buffer with
these glyphs, and nothing else. The cursor ends at `(0, 2)`, the colours are
`GRAY` on `BLACK`, and font and grid are those of the initialisation. -/
theorem C16_board_ui_init (env : Env) (o : InitOracle) (calls calls1 : List Call)
    (con1 : Console) (bs tail : List Int)
    (hinit : rp2040_geek_console_init env o ⟨none, calls⟩ = (true, ⟨some con1, calls1⟩))
    (hcols : 11 ≤ con1.width) (hrows : 3 ≤ con1.height)
    (hbs : ∀ b ∈ bs, 0x20 ≤ b ∧ b ≤ 0x7E) (hn : bs.length < con1.width) :
    board_ui_init env o (bs ++ 0 :: tail) ⟨none, calls⟩ =
      some ⟨some { con1 with
            cursor_x := 0
            cursor_y := 2
            forecolor := env.GRAY
            backcolor := env.BLACK
            framebuffer := drawGlyphs env con1.font env.BLACK env.GRAY
              (drawGlyphs env con1.font env.BLACK env.WHITE con1.framebuffer
                (rowGlyphs con1.font 0 0 [100, 101, 98, 117, 103, 112, 114, 111, 98, 101]))
              (rowGlyphs con1.font 1 0 bs) },
          calls1 ++
            ((rowGlyphs con1.font 0 0 [100, 101, 98, 117, 103, 112, 114, 111, 98, 101]).map
                (drawCall env.BLACK env.WHITE) ++
              ((rowGlyphs con1.font 1 0 bs).map (drawCall env.BLACK env.GRAY) ++
                [Call.LCD_1IN14_V2_Display
                  (drawGlyphs env con1.font env.BLACK env.GRAY
                    (drawGlyphs env con1.font env.BLACK env.WHITE con1.framebuffer
                      (rowGlyphs con1.font 0 0
                        [100, 101, 98, 117, 103, 112, 114, 111, 98, 101]))
                    (rowGlyphs con1.font 1 0 bs))]))⟩ := by
  have hready : (rp2040_geek_console_init env o ⟨none, calls⟩).2.g_console = some con1 := by
    rw [hinit]
  obtain ⟨hcx, hcy⟩ := init_cursor_origin env o _ con1 rfl hready
  obtain ⟨hm, hd⟩ := init_ready_oracle env o _ con1 rfl hready
  have hexp := init_success_eq env o calls hm hd
  rw [hinit] at hexp
  have hcon := Option.some.inj (congrArg (fun r : Bool × World => r.2.g_console) hexp)
  have hW : con1.width < 65536 := by
    rw [hcon]
    exact Nat.mod_lt _ (by decide)
  have hH : con1.height < 65536 := by
    rw [hcon]
    exact Nat.mod_lt _ (by decide)
  -- the banner, white on black
  have p1 := puts_in_row_crlf env [100, 101, 98, 117, 103, 112, 114, 111, 98, 101] []
    { con1 with forecolor := env.WHITE, backcolor := env.BLACK } calls1 hW hH
    (by simp only; omega) (by simp only [List.length_cons, List.length_nil]; omega)
    (by decide)
  -- the serial number, gray on black
  have p2 := puts_in_row env bs tail
    { con1 with
        cursor_x := 0
        cursor_y := con1.cursor_y + 1
        forecolor := env.GRAY
        backcolor := env.BLACK
        framebuffer := drawGlyphs env con1.font env.BLACK env.WHITE con1.framebuffer
          (rowGlyphs con1.font con1.cursor_y con1.cursor_x
            [100, 101, 98, 117, 103, 112, 114, 111, 98, 101]) }
    (calls1 ++ (rowGlyphs con1.font con1.cursor_y con1.cursor_x
      [100, 101, 98, 117, 103, 112, 114, 111, 98, 101]).map (drawCall env.BLACK env.WHITE))
    hW hH (by simp only; omega) (by simp only; omega) hbs
  -- the closing line break
  have p3 := puts_crlf env []
    { con1 with
        cursor_x := 0 + bs.length
        cursor_y := con1.cursor_y + 1
        forecolor := env.GRAY
        backcolor := env.BLACK
        framebuffer := drawGlyphs env con1.font env.BLACK env.GRAY
          (drawGlyphs env con1.font env.BLACK env.WHITE con1.framebuffer
            (rowGlyphs con1.font con1.cursor_y con1.cursor_x
              [100, 101, 98, 117, 103, 112, 114, 111, 98, 101]))
          (rowGlyphs con1.font (con1.cursor_y + 1) 0 bs) }
    (calls1 ++ (rowGlyphs con1.font con1.cursor_y con1.cursor_x
        [100, 101, 98, 117, 103, 112, 114, 111, 98, 101]).map (drawCall env.BLACK env.WHITE) ++
      (rowGlyphs con1.font (con1.cursor_y + 1) 0 bs).map (drawCall env.BLACK env.GRAY))
    (by simp only; omega) (by simp only; omega) hH
  simp only [board_ui_init, hinit, rp2040_geek_console_setcolor]
  erw [p1]
  simp only [Option.bind_eq_bind, Option.some_bind]
  erw [p2]
  simp only [Option.some_bind]
  erw [p3]
  simp only [Option.some_bind, rp2040_geek_console_flush, hcx, hcy, Nat.zero_add,
    List.append_assoc]

/-- C16 at a concrete input: the grid of 12 by 3 of `bannerEnv` and the
serial string `"E6"`: the cursor ends at `(0, 2)`, and after the 13 calls of
the initialisation come 10 + 2 glyph draws and one display refresh, the last
call. -/
theorem C16_board_ui_init_witness :
    (board_ui_init bannerEnv demoOracle ([69, 54] ++ 0 :: []) ⟨none, []⟩).map
        (fun w => (w.g_console.map (fun c => (c.cursor_x, c.cursor_y, c.forecolor)),
          (w.calls.drop 13).take 12, (w.calls.drop 25).map (fun _ => true))) =
      some (some (0, 2, 0x8430),
        [Call.Paint_DrawChar 0 0 100 0 0xFFFF, Call.Paint_DrawChar 1 0 101 0 0xFFFF,
          Call.Paint_DrawChar 2 0 98 0 0xFFFF, Call.Paint_DrawChar 3 0 117 0 0xFFFF,
          Call.Paint_DrawChar 4 0 103 0 0xFFFF, Call.Paint_DrawChar 5 0 112 0 0xFFFF,
          Call.Paint_DrawChar 6 0 114 0 0xFFFF, Call.Paint_DrawChar 7 0 111 0 0xFFFF,
          Call.Paint_DrawChar 8 0 98 0 0xFFFF, Call.Paint_DrawChar 9 0 101 0 0xFFFF,
          Call.Paint_DrawChar 0 1 69 0 0x8430, Call.Paint_DrawChar 1 1 54 0 0x8430],
        [true]) :=
  (congrArg (Option.map (fun w : World =>
      (w.g_console.map (fun c => (c.cursor_x, c.cursor_y, c.forecolor)),
        (w.calls.drop 13).take 12, (w.calls.drop 25).map (fun _ => true))))
    (C16_board_ui_init bannerEnv demoOracle []
      (rp2040_geek_console_init bannerEnv demoOracle ⟨none, []⟩).2.calls
      bannerConsole [69, 54] [] (by decide) (by decide) (by decide) (by decide)
      (by decide))).trans (by decide)

/-- C17. On a Ready console `rp2040_geek_console_setcolor (fg, bg)` changes
only `forecolor` and `backcolor`: cursor, grid, font and every pixel of the
frame buffer are as before and no external call is made (no draw, no
refresh, no recolouring). Every call that later
`rp2040_geek_console_putchar` calls add to the log is a glyph draw carrying
the background `bg` and the foreground `fg`. -/
theorem C17_setcolor_frame (env : Env) (con : Console) (calls : List Call) (fg bg : Nat)
    (chs : List Int) :
    rp2040_geek_console_setcolor fg bg ⟨some con, calls⟩ =
      ⟨some { con with forecolor := fg, backcolor := bg }, calls⟩ ∧
    (∃ made : List Call,
      (putcharEach env chs (rp2040_geek_console_setcolor fg bg ⟨some con, calls⟩)).calls =
        calls ++ made ∧
      ∀ c ∈ made, ∃ (x y : Nat) (ch : Int), c = Call.Paint_DrawChar x y ch bg fg) := by
  refine ⟨rfl, ?_⟩
  obtain ⟨made, hcalls, hmade⟩ :=
    putcharEach_calls env chs { con with forecolor := fg, backcolor := bg } calls
  refine ⟨made, hcalls, ?_⟩
  intro c hc
  obtain ⟨cx, cy, ch2, hc2, _⟩ := hmade c hc
  exact ⟨_, _, ch2, hc2⟩

/-- C18. On a Ready console `rp2040_geek_console_flush` makes exactly one
external call, `LCD_1IN14_V2_Display` of the current frame buffer, and leaves
the console (cursor, colours, grid, frame buffer) exactly as it was. -/
theorem C18_flush_frame (con : Console) (calls : List Call) :
    rp2040_geek_console_flush ⟨some con, calls⟩ =
      ⟨some con, calls ++ [Call.LCD_1IN14_V2_Display con.framebuffer]⟩ := rfl

/-- C19. Glyphs stay on the display: on a console made Ready by
`rp2040_geek_console_init` with font metrics at least 1, 16-bit display
metrics and a non-empty grid, every call that any sequence of
`rp2040_geek_console_putchar` calls adds to the log is a glyph draw whose
top-left pixel `(x, y)` satisfies `x + Font16.Width <= LCD_1IN14_V2.WIDTH`
and `y + Font16.Height <= LCD_1IN14_V2.HEIGHT`; so `x` and `y`, the products
of cursor and font metric, are below `2 ^ 16` and fit 16-bit parameters. -/
theorem C19_glyphs_on_display (env : Env) (o : InitOracle) (w0 : World) (con1 : Console)
    (huninit : w0.g_console = none)
    (hready : (rp2040_geek_console_init env o w0).2.g_console = some con1)
    (_hfw : 1 ≤ env.Font16.Width) (_hfh : 1 ≤ env.Font16.Height)
    (hw16 : env.lcdWIDTH < 65536) (hh16 : env.lcdHEIGHT < 65536)
    (hcols : 1 ≤ con1.width) (hrows : 1 ≤ con1.height) (chs : List Int) :
    ∃ made : List Call,
      (putcharEach env chs (rp2040_geek_console_init env o w0).2).calls =
        (rp2040_geek_console_init env o w0).2.calls ++ made ∧
      ∀ c ∈ made, ∃ (x y : Nat) (ch : Int) (back fore : Nat),
        c = Call.Paint_DrawChar x y ch back fore ∧
        x + env.Font16.Width ≤ env.lcdWIDTH ∧ y + env.Font16.Height ≤ env.lcdHEIGHT ∧
        x < 65536 ∧ y < 65536 := by
  obtain ⟨hx, hy⟩ := init_cursor_origin env o w0 con1 huninit hready
  obtain ⟨hm, hd⟩ := init_ready_oracle env o w0 con1 huninit hready
  obtain ⟨g, calls⟩ := w0
  simp only at huninit
  subst huninit
  have hexp := init_success_eq env o calls hm hd
  have hcon : some _ = some con1 :=
    (congrArg (fun r : Bool × World => r.2.g_console) hexp).symm.trans hready
  have hcon1 := (Option.some.inj hcon).symm
  have hfont : con1.font = env.Font16 := by rw [hcon1]
  have hwid : con1.width ≤ env.lcdWIDTH / env.Font16.Width := by
    rw [hcon1]; exact Nat.mod_le _ _
  have hhei : con1.height ≤ env.lcdHEIGHT / env.Font16.Height := by
    rw [hcon1]; exact Nat.mod_le _ _
  have hw1 : (rp2040_geek_console_init env o ⟨none, calls⟩).2 =
      ⟨some con1, (rp2040_geek_console_init env o ⟨none, calls⟩).2.calls⟩ := by
    rw [← hready]
  obtain ⟨made, hcalls, hmade⟩ := putcharEach_calls env chs con1
    (rp2040_geek_console_init env o ⟨none, calls⟩).2.calls
  refine ⟨made, ?_, ?_⟩
  · rw [hw1]
    exact hcalls
  · intro c hc
    obtain ⟨cx, cy, ch2, hc2, hin⟩ := hmade c hc
    obtain ⟨hcx, hcy⟩ := hin hcols hrows (by omega) (by omega)
    rw [hfont] at hc2
    have hxw : cx * env.Font16.Width + env.Font16.Width ≤ env.lcdWIDTH := by
      have h1 : (cx + 1) * env.Font16.Width ≤
          env.lcdWIDTH / env.Font16.Width * env.Font16.Width :=
        Nat.mul_le_mul_right _ (by omega)
      have h2 := Nat.div_mul_le_self env.lcdWIDTH env.Font16.Width
      rw [Nat.add_mul, Nat.one_mul] at h1
      omega
    have hyh : cy * env.Font16.Height + env.Font16.Height ≤ env.lcdHEIGHT := by
      have h1 : (cy + 1) * env.Font16.Height ≤
          env.lcdHEIGHT / env.Font16.Height * env.Font16.Height :=
        Nat.mul_le_mul_right _ (by omega)
      have h2 := Nat.div_mul_le_self env.lcdHEIGHT env.Font16.Height
      rw [Nat.add_mul, Nat.one_mul] at h1
      omega
    exact ⟨_, _, ch2, _, _, hc2, hxw, hyh, by omega, by omega⟩

/-- C19 at a concrete input: the demo console after initialisation and the
bytes `A`, tab, `B`, line feed, `0x01`, `C`, `D`, `E`, `F`. -/
theorem C19_glyphs_on_display_witness :
    ∃ made : List Call,
      (putcharEach demoEnv [65, 9, 66, 10, 1, 67, 68, 69, 70]
          (rp2040_geek_console_init demoEnv demoOracle ⟨none, []⟩).2).calls =
        (rp2040_geek_console_init demoEnv demoOracle ⟨none, []⟩).2.calls ++ made ∧
      ∀ c ∈ made, ∃ (x y : Nat) (ch : Int) (back fore : Nat),
        c = Call.Paint_DrawChar x y ch back fore ∧
        x + 2 ≤ 8 ∧ y + 2 ≤ 4 ∧ x < 65536 ∧ y < 65536 :=
  C19_glyphs_on_display demoEnv demoOracle ⟨none, []⟩ (demoConsole 0 0) rfl (by decide)
    (by decide) (by decide) (by decide) (by decide) (by decide) (by decide)
    [65, 9, 66, 10, 1, 67, 68, 69, 70]

/-- C20. Row periodicity: on a Ready console with the cursor `(c, r)` inside
a grid of 16-bit dimensions, writing exactly `width` characters, each in
`0x20..0x7E`, leaves the cursor at `(c, (r + 1) % height)`: the column is
restored and the row advances by one, from the last row to row 0. Writing
`width * height` such characters returns the cursor to `(c, r)`. -/
theorem C20_row_periodicity (env : Env) (con : Console) (calls : List Call)
    (chs chs2 : List Int) (hW : con.width < 65536) (hH : con.height < 65536)
    (hx : con.cursor_x < con.width) (hy : con.cursor_y < con.height)
    (hlen : chs.length = con.width) (hchs : ∀ ch ∈ chs, 0x20 ≤ ch ∧ ch ≤ 0x7E)
    (hlen2 : chs2.length = con.width * con.height)
    (hchs2 : ∀ ch ∈ chs2, 0x20 ≤ ch ∧ ch ≤ 0x7E) :
    (∃ con2 : Console,
      (putcharEach env chs ⟨some con, calls⟩).g_console = some con2 ∧
      con2.cursor_x = con.cursor_x ∧
      con2.cursor_y = (con.cursor_y + 1) % con.height) ∧
    (∃ con3 : Console,
      (putcharEach env chs2 ⟨some con, calls⟩).g_console = some con3 ∧
      con3.cursor_x = con.cursor_x ∧ con3.cursor_y = con.cursor_y) := by
  have hN : 0 < con.width * con.height := Nat.mul_pos (by omega) (by omega)
  obtain ⟨c1, c2⟩ := cell_of_cursor con.width con.height con.cursor_x con.cursor_y hx hy
  constructor
  · rw [putcharEach_full_row env con calls chs hW hH hx hy hlen hchs]
    refine ⟨_, rfl, rfl, ?_⟩
    show (if con.cursor_y + 1 < con.height then con.cursor_y + 1 else 0) =
      (con.cursor_y + 1) % con.height
    split_ifs with h
    · exact (Nat.mod_eq_of_lt h).symm
    · have e : con.cursor_y + 1 = con.height := by omega
      rw [e, Nat.mod_self]
  · rw [putcharEach_printable env chs2 con calls (con.width * con.cursor_y + con.cursor_x)
      hW hH hN c1.symm c2.symm hchs2, hlen2, Nat.add_mod_right]
    exact ⟨_, rfl, c1, c2⟩

/-- C20 at a concrete input: from `(2, 1)` on the 4 by 2 demo console, four
characters end at `(2, 0)` and eight characters at `(2, 1)`. -/
theorem C20_row_periodicity_witness :
    (∃ con2 : Console,
      (putcharEach demoEnv [65, 66, 67, 68] ⟨some (demoConsole 2 1), []⟩).g_console
        = some con2 ∧
      con2.cursor_x = 2 ∧ con2.cursor_y = (1 + 1) % 2) ∧
    (∃ con3 : Console,
      (putcharEach demoEnv [65, 66, 67, 68, 69, 70, 71, 72]
        ⟨some (demoConsole 2 1), []⟩).g_console = some con3 ∧
      con3.cursor_x = 2 ∧ con3.cursor_y = 1) :=
  C20_row_periodicity demoEnv (demoConsole 2 1) [] [65, 66, 67, 68]
    [65, 66, 67, 68, 69, 70, 71, 72] (by decide) (by decide) (by decide) (by decide)
    rfl (by decide) rfl (by decide)

end Geek
